import Mathlib

/-!
# Verification of the TDMS reader core

A shallow embedding of the TDMS reader library (files `src/tdms/src/lib.rs`
and `src/tdms/src/tdms_datatypes.rs`) together with theorems settling the
specification claims.

Modelling conventions:
* Bytes are `Nat` values (well-formed streams carry values `< 256`); a file is
  a `List Nat`.
* Rust `u64`/`u32`/`usize` arithmetic is modelled with explicit wrap-around
  (`wadd`, `wmul`, `wsub`, `wsub32`), matching release-mode wrapping semantics.
* Fallible code returns `Except Fail _`; Rust panics (`unwrap`,
  `unimplemented!`, slice out of bounds) are the distinguished `Fail.crash`
  constructor, which no error-recovery path intercepts, exactly as a Rust
  panic aborts.  `Fail.outOfFuel` is a modelling artifact for the unbounded
  segment-walking loop.
* `String` values are represented by their UTF-8 byte lists; `f32`/`f64`
  values by their raw bit patterns (the library never computes with them).
* The segment-metadata parser in the source only ever reads forward from the
  initial seek, so it is embedded as a sequential consumer of the remaining
  byte list; the loader uses absolute seeks and is embedded over a
  position-carrying reader state.
-/

set_option maxRecDepth 40000

/-- 2^64, the wrap-around modulus of Rust `u64`/`usize` arithmetic. -/
def W64 : Nat := 18446744073709551616

/-- 2^32, the wrap-around modulus of Rust `u32` arithmetic. -/
def W32 : Nat := 4294967296

/-- Wrapping 64-bit addition. -/
def wadd (a b : Nat) : Nat := (a + b) % W64

/-- Wrapping 64-bit multiplication. -/
def wmul (a b : Nat) : Nat := a * b % W64

/-- Wrapping 64-bit subtraction. -/
def wsub (a b : Nat) : Nat := (a % W64 + (W64 - b % W64)) % W64

/-- Wrapping 32-bit subtraction. -/
def wsub32 (a b : Nat) : Nat := (a % W32 + (W32 - b % W32)) % W32

/-- Error kinds of the library (`tdms_error.rs`), with the two `io::Error`
cases the indexer distinguishes (`ErrorKind::UnexpectedEof` versus any other
I/O error) split apart. -/
inductive TdmsErr where
  | ioUnexpectedEof
  | ioOther
  | fromUtf8
  | noPreviousObject
  | stringSizeNotDefined
  | rawDataTypeNotFound
  | channelNotFound
  | objectHasNoRawData
deriving DecidableEq, Repr

/-- A failure outcome: a returned `TdmsError`, a Rust panic (`crash`), or
exhaustion of the modelling fuel of the segment loop. -/
inductive Fail where
  | err : TdmsErr → Fail
  | crash : Fail
  | outOfFuel : Fail
deriving DecidableEq, Repr

/-- Combine bytes little-endian (first byte least significant). -/
def combineLE : List Nat → Nat
  | [] => 0
  | b :: r => b + 256 * combineLE r

/-- Byte order of a segment. -/
inductive Endian where
  | le
  | be
deriving DecidableEq, Repr

/-- Combine a byte list into an unsigned integer under the given byte order. -/
def combine (e : Endian) (bs : List Nat) : Nat :=
  match e with
  | .le => combineLE bs
  | .be => combineLE bs.reverse

/-- Two's-complement reading of an unsigned 64-bit value as `i64`. -/
def toI64 (n : Nat) : Int :=
  if n < 2 ^ 63 then (n : Int) else (n : Int) - (W64 : Int)

/-- Two's-complement reading of an unsigned value as a signed `w`-bit value. -/
def toSigned (w : Nat) (n : Nat) : Int :=
  if n < 2 ^ (w - 1) then (n : Int) else (n : Int) - (2 ^ w : Int)

/-- UTF-8 validity of a byte list, as checked by Rust `String::from_utf8`
(rejecting overlong forms, surrogates and values above U+10FFFF). -/
def utf8Valid : List Nat → Bool
  | [] => true
  | b :: rest =>
    if b < 0x80 then utf8Valid rest
    else if 0xC2 ≤ b ∧ b ≤ 0xDF then
      match rest with
      | b1 :: r => decide (0x80 ≤ b1 ∧ b1 ≤ 0xBF) && utf8Valid r
      | [] => false
    else if b = 0xE0 then
      match rest with
      | b1 :: b2 :: r =>
        decide (0xA0 ≤ b1 ∧ b1 ≤ 0xBF) && decide (0x80 ≤ b2 ∧ b2 ≤ 0xBF) && utf8Valid r
      | _ => false
    else if (0xE1 ≤ b ∧ b ≤ 0xEC) ∨ b = 0xEE ∨ b = 0xEF then
      match rest with
      | b1 :: b2 :: r =>
        decide (0x80 ≤ b1 ∧ b1 ≤ 0xBF) && decide (0x80 ≤ b2 ∧ b2 ≤ 0xBF) && utf8Valid r
      | _ => false
    else if b = 0xED then
      match rest with
      | b1 :: b2 :: r =>
        decide (0x80 ≤ b1 ∧ b1 ≤ 0x9F) && decide (0x80 ≤ b2 ∧ b2 ≤ 0xBF) && utf8Valid r
      | _ => false
    else if b = 0xF0 then
      match rest with
      | b1 :: b2 :: b3 :: r =>
        decide (0x90 ≤ b1 ∧ b1 ≤ 0xBF) && decide (0x80 ≤ b2 ∧ b2 ≤ 0xBF) &&
          decide (0x80 ≤ b3 ∧ b3 ≤ 0xBF) && utf8Valid r
      | _ => false
    else if 0xF1 ≤ b ∧ b ≤ 0xF3 then
      match rest with
      | b1 :: b2 :: b3 :: r =>
        decide (0x80 ≤ b1 ∧ b1 ≤ 0xBF) && decide (0x80 ≤ b2 ∧ b2 ≤ 0xBF) &&
          decide (0x80 ≤ b3 ∧ b3 ≤ 0xBF) && utf8Valid r
      | _ => false
    else if b = 0xF4 then
      match rest with
      | b1 :: b2 :: b3 :: r =>
        decide (0x80 ≤ b1 ∧ b1 ≤ 0x8F) && decide (0x80 ≤ b2 ∧ b2 ≤ 0xBF) &&
          decide (0x80 ≤ b3 ∧ b3 ≤ 0xBF) && utf8Valid r
      | _ => false
    else false

/-- The raw-type registry (`DataTypeRaw` in `tdms_datatypes.rs`). -/
inductive DataTypeRaw where
  | Void
  | I8
  | I16
  | I32
  | I64
  | U8
  | U16
  | U32
  | U64
  | SingleFloat
  | DoubleFloat
  | ExtendedFloat
  | SingleFloatWithUnit
  | DoubleFloatWithUnit
  | ExtendedFloatWithUnit
  | TdmsString
  | Boolean
  | TimeStamp
  | FixedPoint
  | ComplexSingleFloat
  | ComplexDoubleFloat
  | DAQmxRawData
deriving DecidableEq, Repr

namespace DataTypeRaw

/-- `DataTypeRaw::from_u32`: decode the on-disk `u32` type code. -/
def fromU32 (raw : Nat) : Except Fail DataTypeRaw :=
  if raw = 0 then .ok .Void
  else if raw = 1 then .ok .I8
  else if raw = 2 then .ok .I16
  else if raw = 3 then .ok .I32
  else if raw = 4 then .ok .I64
  else if raw = 5 then .ok .U8
  else if raw = 6 then .ok .U16
  else if raw = 7 then .ok .U32
  else if raw = 8 then .ok .U64
  else if raw = 9 then .ok .SingleFloat
  else if raw = 10 then .ok .DoubleFloat
  else if raw = 11 then .ok .ExtendedFloat
  else if raw = 0x19 then .ok .SingleFloatWithUnit
  else if raw = 12 then .ok .DoubleFloatWithUnit
  else if raw = 13 then .ok .ExtendedFloatWithUnit
  else if raw = 0x20 then .ok .TdmsString
  else if raw = 0x21 then .ok .Boolean
  else if raw = 0x44 then .ok .TimeStamp
  else if raw = 0x4F then .ok .FixedPoint
  else if raw = 0x0008000c then .ok .ComplexSingleFloat
  else if raw = 0x0010000d then .ok .ComplexDoubleFloat
  else if raw = 0xFFFFFFFF then .ok .DAQmxRawData
  else .error (.err .rawDataTypeNotFound)

/-- `DataTypeRaw::size`: fixed byte size of a type; an error for strings. -/
def size : DataTypeRaw → Except Fail Nat
  | .Void => .ok 0
  | .I8 => .ok 1
  | .I16 => .ok 2
  | .I32 => .ok 4
  | .I64 => .ok 8
  | .U8 => .ok 1
  | .U16 => .ok 2
  | .U32 => .ok 4
  | .U64 => .ok 8
  | .SingleFloat => .ok 4
  | .DoubleFloat => .ok 8
  | .ExtendedFloat => .ok 10
  | .SingleFloatWithUnit => .ok 4
  | .DoubleFloatWithUnit => .ok 8
  | .ExtendedFloatWithUnit => .ok 10
  | .Boolean => .ok 1
  | .TdmsString => .error (.err .stringSizeNotDefined)
  | .TimeStamp => .ok 16
  | .FixedPoint => .ok 4
  | .ComplexSingleFloat => .ok 8
  | .ComplexDoubleFloat => .ok 16
  | .DAQmxRawData => .ok 0

end DataTypeRaw

/-- ToC flag bit values (`TocProperties`). -/
def kTocMetaData : Nat := 2
/-- New-object-list ToC bit. -/
def kTocNewObjList : Nat := 4
/-- Raw-data-present ToC bit. -/
def kTocRawData : Nat := 8
/-- Interleaved-data ToC bit. -/
def kTocInterleavedData : Nat := 32
/-- Big-endian ToC bit. -/
def kTocBigEndian : Nat := 64
/-- DAQmx-raw-data ToC bit. -/
def kTocDAQmxRawData : Nat := 128

/-- `TocMask::has_flag`: `(flags & flag) == flag`. -/
def hasFlag (flags flag : Nat) : Bool := flags &&& flag == flag

/-- Discriminator: no raw data in this segment for this object. -/
def NO_RAW_DATA : Nat := 0xFFFFFFFF
/-- Discriminator: raw-data descriptor carried over from a previous segment.
The source writes the literal `0x0000_000`, which is `0`. -/
def DATA_INDEX_MATCHES_PREVIOUS : Nat := 0
/-- Discriminator: DAQmx format-changing scaler. -/
def FORMAT_CHANGING_SCALER : Nat := 0x69120000
/-- Discriminator constant named `DIGITAL_LINE_SCALER` in the source; the
source defines it as `0x6912_0000`, identical to `FORMAT_CHANGING_SCALER`
(not `0x6913_0000`). -/
def DIGITAL_LINE_SCALER : Nat := 0x69120000

/-- Segment lead-in length in bytes. -/
def HEADER_LEN : Nat := 28

/-- Object paths, as UTF-8 byte lists. -/
abbrev TdmsPath := List Nat

/-- A decoded property value (`DataType` in `tdms_datatypes.rs`); strings are
byte lists, floats raw bit patterns. -/
inductive DataType where
  | VoidVal : DataType
  | Boolean : Bool → DataType
  | I8 : Int → DataType
  | I16 : Int → DataType
  | I32 : Int → DataType
  | I64 : Int → DataType
  | U8 : Nat → DataType
  | U16 : Nat → DataType
  | U32 : Nat → DataType
  | U64 : Nat → DataType
  | Float : Nat → DataType
  | Double : Nat → DataType
  | TdmsString : List Nat → DataType
  | DaqMx : Nat → DataType
  | TimeStampVal : Int → Nat → DataType
deriving DecidableEq, Repr

/-- An object property (`ObjectProperty`). -/
structure ObjectProperty where
  prop_name : List Nat
  data_type : DataTypeRaw
  propValue : DataType
deriving DecidableEq, Repr

/-- One DAQmx scaler record (`DAQMxScaler`). -/
structure DAQMxScaler where
  daqmx_data_type : DataTypeRaw
  daqmx_rawbuff_indx : Nat
  daqmx_raw_byte_offset : Nat
  sample_format_bitmap : Nat
  scale_id : Nat
deriving DecidableEq, Repr

/-- The captured DAQmx descriptor (`DAQMxInfo`). -/
structure DAQMxInfo where
  formatvec_size : Nat
  scalers : List DAQMxScaler
  widthvec_size : Nat
  widthvec : List Nat
deriving DecidableEq, Repr

/-- The per-object record (`TdmsObject`); properties are an insertion-ordered
association list keyed by name. -/
structure TdmsObject where
  object_path : TdmsPath := []
  index_info_len : Nat := 0
  raw_data_type : Option DataTypeRaw := none
  raw_data_dim : Option Nat := none
  no_raw_vals : Option Nat := none
  no_bytes : Nat := 0
  no_properties : Nat := 0
  daqmx_info : Option DAQMxInfo := none
  properties : List (List Nat × ObjectProperty) := []
deriving DecidableEq, Repr

instance : Inhabited TdmsObject := ⟨{}⟩

/-- One read-plan entry (`ReadPair`). -/
structure ReadPair where
  start_index : Nat
  no_values : Nat
  interleaved : Bool
  stride : Option Nat
deriving DecidableEq, Repr

/-- The per-object index entry (`ObjectMap`). -/
structure ObjectMap where
  last_object : TdmsObject := {}
  read_map : List ReadPair := []
  total_bytes : Nat := 0
  total_values : Nat := 0
  bigendian : Bool := false
deriving DecidableEq, Repr

instance : Inhabited ObjectMap := ⟨{}⟩

/-- A segment record (`TdmsSegment`). -/
structure TdmsSegment where
  file_tag : Nat := 0
  toc_mask : Nat := 0
  version_no : Nat := 0
  next_seg_offset : Nat := 0
  raw_data_offset : Nat := 0
  start_index : Nat := 0
  no_chunks : Nat := 0
  chunk_size : Nat := 0
  channels_size : Nat := 0
deriving DecidableEq, Repr

/-- `TdmsSegment::new`. -/
def TdmsSegment.new (start_index : Nat) : TdmsSegment := { start_index := start_index }

/-- The whole index (`TdmsMap`); `all_objects` is an insertion-ordered map
modelled as an association list. -/
structure TdmsMap where
  segments : List TdmsSegment := []
  all_objects : List (TdmsPath × ObjectMap) := []
  live_objects : List TdmsPath := []
deriving DecidableEq, Repr

/-- `TdmsMap::new`. -/
def TdmsMap.new : TdmsMap := {}

/-- Ordered-map lookup (first binding of the key). -/
def imapFind {α : Type} : List (TdmsPath × α) → TdmsPath → Option α
  | [], _ => none
  | (k, v) :: rest, key => if k = key then some v else imapFind rest key

/-- Ordered-map key membership (`IndexMap::contains_key`). -/
def imapContains {α : Type} (m : List (TdmsPath × α)) (key : TdmsPath) : Bool :=
  (imapFind m key).isSome

/-- Ordered-map in-place value update, keeping the key's position. -/
def imapUpdate {α : Type} : List (TdmsPath × α) → TdmsPath → (α → α) → List (TdmsPath × α)
  | [], _, _ => []
  | (k, v) :: rest, key, f =>
    if k = key then (k, f v) :: rest else (k, v) :: imapUpdate rest key f

/-- `IndexMap::entry(..).or_default()`: insert a default at the end when the
key is absent. -/
def imapEntryOrDefault {α : Type} [Inhabited α] (m : List (TdmsPath × α)) (key : TdmsPath) :
    List (TdmsPath × α) :=
  if imapContains m key then m else m ++ [(key, default)]

/-- Insertion-ordered property overwrite-or-insert (`IndexMap::insert` keyed
by property name: overwriting keeps the original position). -/
def propInsert (m : List (List Nat × ObjectProperty)) (k : List Nat) (v : ObjectProperty) :
    List (List Nat × ObjectProperty) :=
  if imapContains m k then imapUpdate m k (fun _ => v) else m ++ [(k, v)]

/-! ## Sequential byte-stream primitives (metadata phase)

The segment-metadata parser only reads forward from its initial seek, so it
is embedded as a consumer of the remaining byte list.  `read_exact` past the
end of the file yields `ErrorKind::UnexpectedEof`. -/

/-- Take `n` bytes off the front of the stream, or fail with unexpected EOF. -/
def takeBytes (n : Nat) (s : List Nat) : Except Fail (List Nat × List Nat) :=
  if n ≤ s.length then .ok (s.take n, s.drop n) else .error (.err .ioUnexpectedEof)

/-- Read a `u32` under the given byte order. -/
def takeU32 (e : Endian) (s : List Nat) : Except Fail (Nat × List Nat) :=
  match takeBytes 4 s with
  | .error f => .error f
  | .ok (bs, s') => .ok (combine e bs, s')

/-- Read a `u64` under the given byte order. -/
def takeU64 (e : Endian) (s : List Nat) : Except Fail (Nat × List Nat) :=
  match takeBytes 8 s with
  | .error f => .error f
  | .ok (bs, s') => .ok (combine e bs, s')

/-- `read_string`: a 4-byte length, then that many bytes, validated as UTF-8
(`FromUtf8` error on invalid bytes).  The string is kept as its byte list. -/
def readTdmsString (e : Endian) (s : List Nat) : Except Fail (List Nat × List Nat) :=
  match takeU32 e s with
  | .error f => .error f
  | .ok (len, s') =>
    match takeBytes len s' with
    | .error f => .error f
    | .ok (bs, s'') => if utf8Valid bs then .ok (bs, s'') else .error (.err .fromUtf8)

/-- `read_datatype`: decode one scalar property value of the given raw type;
types outside the source's match arms hit `unimplemented!` (a panic). -/
def readDatatype (e : Endian) (t : DataTypeRaw) (s : List Nat) :
    Except Fail (DataType × List Nat) :=
  match t with
  | .TdmsString =>
    match readTdmsString e s with
    | .error f => .error f
    | .ok (v, s') => .ok (.TdmsString v, s')
  | .U8 =>
    match takeBytes 1 s with
    | .error f => .error f
    | .ok (bs, s') => .ok (.U8 (combine e bs), s')
  | .U16 =>
    match takeBytes 2 s with
    | .error f => .error f
    | .ok (bs, s') => .ok (.U16 (combine e bs), s')
  | .U32 =>
    match takeU32 e s with
    | .error f => .error f
    | .ok (v, s') => .ok (.U32 v, s')
  | .U64 =>
    match takeU64 e s with
    | .error f => .error f
    | .ok (v, s') => .ok (.U64 v, s')
  | .I8 =>
    match takeBytes 1 s with
    | .error f => .error f
    | .ok (bs, s') => .ok (.I8 (toSigned 8 (combine e bs)), s')
  | .I16 =>
    match takeBytes 2 s with
    | .error f => .error f
    | .ok (bs, s') => .ok (.I16 (toSigned 16 (combine e bs)), s')
  | .I32 =>
    match takeU32 e s with
    | .error f => .error f
    | .ok (v, s') => .ok (.I32 (toSigned 32 v), s')
  | .I64 =>
    match takeU64 e s with
    | .error f => .error f
    | .ok (v, s') => .ok (.I64 (toI64 v), s')
  | .SingleFloat =>
    match takeU32 e s with
    | .error f => .error f
    | .ok (v, s') => .ok (.Float v, s')
  | .DoubleFloat =>
    match takeU64 e s with
    | .error f => .error f
    | .ok (v, s') => .ok (.Double v, s')
  | .Boolean =>
    match takeBytes 1 s with
    | .error f => .error f
    | .ok (bs, s') => .ok (.Boolean (combine e bs ≠ 0), s')
  | .TimeStamp =>
    match takeU64 e s with
    | .error f => .error f
    | .ok (ep, s') =>
      match takeU64 e s' with
      | .error f => .error f
      | .ok (rad, s'') => .ok (.TimeStampVal (toI64 ep) rad, s'')
  | .DAQmxRawData =>
    match takeU64 e s with
    | .error f => .error f
    | .ok (v, s') => .ok (.DaqMx v, s')
  | _ => .error .crash

/-- `ObjectProperty::read_property`: name, type code, value. -/
def readProperty (e : Endian) (s : List Nat) : Except Fail (ObjectProperty × List Nat) :=
  match readTdmsString e s with
  | .error f => .error f
  | .ok (name, s') =>
    match takeU32 e s' with
    | .error f => .error f
    | .ok (code, s'') =>
      match DataTypeRaw.fromU32 code with
      | .error f => .error f
      | .ok dt =>
        match readDatatype e dt s'' with
        | .error f => .error f
        | .ok (v, s''') => .ok ({ prop_name := name, data_type := dt, propValue := v }, s''')

/-- The property loop of `update_properties`: read `n` properties, inserting
each as it is parsed (so an error keeps the ones already read). -/
def propsLoop (e : Endian) : Nat → TdmsObject → List Nat →
    TdmsObject × Except Fail (List Nat)
  | 0, ob, s => (ob, .ok s)
  | n + 1, ob, s =>
    match readProperty e s with
    | .error f => (ob, .error f)
    | .ok (p, s') =>
      propsLoop e n { ob with properties := propInsert ob.properties p.prop_name p } s'

/-- `TdmsObject::update_properties`: read the property count, then that many
properties, overwriting by name. -/
def updateProperties (e : Endian) (ob : TdmsObject) (s : List Nat) :
    TdmsObject × Except Fail (List Nat) :=
  match takeU32 e s with
  | .error f => (ob, .error f)
  | .ok (np, s') => propsLoop e np { ob with no_properties := np } s'

/-- `TdmsObject::read_sizeinfo`: type code, dimension, value count, and the
byte count (read from the file for strings, else `size * no_vals * dim`).
All field assignments happen after the reads succeed. -/
def readSizeinfo (e : Endian) (ob : TdmsObject) (s : List Nat) :
    Except Fail (TdmsObject × List Nat) :=
  match takeU32 e s with
  | .error f => .error f
  | .ok (code, s1) =>
    match DataTypeRaw.fromU32 code with
    | .error f => .error f
    | .ok rdt =>
      match takeU32 e s1 with
      | .error f => .error f
      | .ok (dim, s2) =>
        match takeU64 e s2 with
        | .error f => .error f
        | .ok (noVals, s3) =>
          match rdt with
          | .TdmsString =>
            match takeU64 e s3 with
            | .error f => .error f
            | .ok (nb, s4) =>
              .ok ({ ob with no_bytes := nb, raw_data_type := some rdt,
                             raw_data_dim := some dim, no_raw_vals := some noVals }, s4)
          | other =>
            match other.size with
            | .error f => .error f
            | .ok sz =>
              .ok ({ ob with no_bytes := wmul (wmul sz noVals) dim,
                             raw_data_type := some rdt,
                             raw_data_dim := some dim, no_raw_vals := some noVals }, s3)

/-- The scaler loop of `read_daqmxinfo`. -/
def scalersLoop (e : Endian) : Nat → List DAQMxScaler → List Nat →
    Except Fail (List DAQMxScaler × List Nat)
  | 0, acc, s => .ok (acc, s)
  | n + 1, acc, s =>
    match takeU32 e s with
    | .error f => .error f
    | .ok (code, s1) =>
      match DataTypeRaw.fromU32 code with
      | .error f => .error f
      | .ok dt =>
        match takeU32 e s1 with
        | .error f => .error f
        | .ok (bufIdx, s2) =>
          match takeU32 e s2 with
          | .error f => .error f
          | .ok (byteOff, s3) =>
            match takeU32 e s3 with
            | .error f => .error f
            | .ok (fmtBits, s4) =>
              match takeU32 e s4 with
              | .error f => .error f
              | .ok (scaleId, s5) =>
                scalersLoop e n
                  (acc ++ [{ daqmx_data_type := dt, daqmx_rawbuff_indx := bufIdx,
                             daqmx_raw_byte_offset := byteOff,
                             sample_format_bitmap := fmtBits, scale_id := scaleId }]) s5

/-- The width-vector loop of `read_daqmxinfo`. -/
def widthvecLoop (e : Endian) : Nat → List Nat → List Nat →
    Except Fail (List Nat × List Nat)
  | 0, acc, s => .ok (acc, s)
  | n + 1, acc, s =>
    match takeU32 e s with
    | .error f => .error f
    | .ok (w, s') => widthvecLoop e n (acc ++ [w]) s'

/-- `TdmsObject::read_daqmxinfo`: format vector of scalers, then the
data-width vector; `daqmx_info` is assigned at the end. -/
def readDaqmxinfo (e : Endian) (ob : TdmsObject) (s : List Nat) :
    Except Fail (TdmsObject × List Nat) :=
  match takeU32 e s with
  | .error f => .error f
  | .ok (fmtSize, s1) =>
    match scalersLoop e fmtSize [] s1 with
    | .error f => .error f
    | .ok (scalers, s2) =>
      match takeU32 e s2 with
      | .error f => .error f
      | .ok (widthSize, s3) =>
        match widthvecLoop e widthSize [] s3 with
        | .error f => .error f
        | .ok (widths, s4) =>
          .ok ({ ob with daqmx_info := some { formatvec_size := fmtSize, scalers := scalers,
                                              widthvec_size := widthSize, widthvec := widths } },
               s4)

/-- Write the (possibly partially updated) object record back into
`all_objects`, keeping every other `ObjectMap` field. -/
def commitObject (m : TdmsMap) (path : TdmsPath) (ob : TdmsObject) : TdmsMap :=
  { m with all_objects := imapUpdate m.all_objects path (fun om => { om with last_object := ob }) }

/-- `TdmsObject::update_read_object`: create-or-fetch the entry for `path`,
read the discriminator and dispatch.  Mutations made before a failing read
persist in the returned map, as they do through the `&mut self` in the
source.  Returns `(no_bytes, raw_data_type)` of the updated record. -/
def updateReadObject (m0 : TdmsMap) (path : TdmsPath) (e : Endian) (s : List Nat) :
    TdmsMap × Except Fail ((Nat × Option DataTypeRaw) × List Nat) :=
  let prior := imapContains m0.all_objects path
  let m := { m0 with all_objects := imapEntryOrDefault m0.all_objects path }
  let ob0 := { ((imapFind m.all_objects path).getD default).last_object with object_path := path }
  match takeU32 e s with
  | .error f => (commitObject m path ob0, .error f)
  | .ok (il, s1) =>
    let ob1 := { ob0 with index_info_len := il }
    if il = NO_RAW_DATA then
      match updateProperties e ob1 s1 with
      | (ob2, .error f) => (commitObject m path ob2, .error f)
      | (ob2, .ok s2) =>
        (commitObject m path ob2, .ok ((ob2.no_bytes, ob2.raw_data_type), s2))
    else if il = DATA_INDEX_MATCHES_PREVIOUS then
      if !prior then (commitObject m path ob1, .error (.err .noPreviousObject))
      else
        match updateProperties e ob1 s1 with
        | (ob2, .error f) => (commitObject m path ob2, .error f)
        | (ob2, .ok s2) =>
          (commitObject m path ob2, .ok ((ob2.no_bytes, ob2.raw_data_type), s2))
    else if il = FORMAT_CHANGING_SCALER then
      match readSizeinfo e ob1 s1 with
      | .error f => (commitObject m path ob1, .error f)
      | .ok (ob2, s2) =>
        match readDaqmxinfo e ob2 s2 with
        | .error f => (commitObject m path ob2, .error f)
        | .ok (ob3, s3) =>
          match updateProperties e ob3 s3 with
          | (ob4, .error f) => (commitObject m path ob4, .error f)
          | (ob4, .ok s4) =>
            (commitObject m path ob4, .ok ((ob4.no_bytes, ob4.raw_data_type), s4))
    else if il = DIGITAL_LINE_SCALER then
      match readSizeinfo e ob1 s1 with
      | .error f => (commitObject m path ob1, .error f)
      | .ok (ob2, s2) =>
        match readDaqmxinfo e ob2 s2 with
        | .error f => (commitObject m path ob2, .error f)
        | .ok (ob3, s3) =>
          match updateProperties e ob3 s3 with
          | (ob4, .error f) => (commitObject m path ob4, .error f)
          | (ob4, .ok s4) =>
            (commitObject m path ob4, .ok ((ob4.no_bytes, ob4.raw_data_type), s4))
    else
      match readSizeinfo e ob1 s1 with
      | .error f => (commitObject m path ob1, .error f)
      | .ok (ob2, s2) =>
        match updateProperties e ob2 s2 with
        | (ob3, .error f) => (commitObject m path ob3, .error f)
        | (ob3, .ok s3) =>
          (commitObject m path ob3, .ok ((ob3.no_bytes, ob3.raw_data_type), s3))

/-! ## The indexer (`TdmsMap`) -/

/-- The inner chunk loop of `update_indexes`: one `ReadPair` per chunk index,
unwrapping `no_raw_vals` (a panic when absent), and accumulating the byte and
value totals. -/
def pairsLoop (seg : TdmsSegment) (chunk relPos : Nat) (strideVal : Nat) :
    Nat → Nat → ObjectMap → Except Fail ObjectMap
  | _, 0, om => .ok om
  | i, k + 1, om =>
    match om.last_object.no_raw_vals with
    | none => .error .crash
    | some vals =>
      let pair : ReadPair :=
        { start_index := wadd (wadd (wadd (wadd seg.start_index HEADER_LEN)
                                seg.raw_data_offset) (wmul i chunk)) relPos,
          no_values := vals,
          interleaved := hasFlag seg.toc_mask kTocInterleavedData,
          stride := some strideVal }
      pairsLoop seg chunk relPos strideVal (i + 1) k
        { om with read_map := om.read_map ++ [pair],
                  total_bytes := wadd om.total_bytes om.last_object.no_bytes,
                  total_values := wadd om.total_values vals }

/-- The walk over `live_objects` in `update_indexes`, with the running
`relative_position`.  A missing `all_objects` entry is the source's
`get_mut(..).unwrap()` panic. -/
def uiLoop (seg : TdmsSegment) (chunk channels : Nat) :
    List TdmsPath → Nat → TdmsMap → TdmsMap × Except Fail Unit
  | [], _, m => (m, .ok ())
  | key :: rest, relPos, m =>
    match imapFind m.all_objects key with
    | none => (m, .error .crash)
    | some om =>
      let typeSizeE : Except Fail Nat :=
        match om.last_object.raw_data_type with
        | none => .ok 0
        | some .TdmsString => .ok om.last_object.no_bytes
        | some other => other.size
      match typeSizeE with
      | .error f => (m, .error f)
      | .ok typeSize =>
        match
          (if om.last_object.no_bytes > 0 then
            pairsLoop seg chunk relPos (wsub channels typeSize) 0 seg.no_chunks om
          else .ok om) with
        | .error f => (m, .error f)
        | .ok om1 =>
          let om2 := { om1 with bigendian := hasFlag seg.toc_mask kTocBigEndian }
          let m1 := { m with all_objects := imapUpdate m.all_objects key (fun _ => om2) }
          let relPos' :=
            if hasFlag seg.toc_mask kTocInterleavedData then wadd relPos typeSize
            else wadd relPos om.last_object.no_bytes
          uiLoop seg chunk channels rest relPos' m1

/-- `TdmsMap::update_indexes`. -/
def updateIndexes (m : TdmsMap) (seg : TdmsSegment) (chunk channels : Nat) :
    TdmsMap × Except Fail Unit :=
  uiLoop seg chunk channels m.live_objects 0 m

/-- The object loop of `read_segment_metadata`: for each declared object,
read path and record, accumulate `chunk_size` and `channels_size`, and push
the path onto `live_objects` when not already present. -/
def objLoop (e : Endian) : Nat → TdmsMap → Nat → Nat → List Nat →
    TdmsMap × Except Fail (Nat × Nat × List Nat)
  | 0, m, chunk, channels, s => (m, .ok (chunk, channels, s))
  | n + 1, m, chunk, channels, s =>
    match readTdmsString e s with
    | .error f => (m, .error f)
    | .ok (path, s1) =>
      match updateReadObject m path e s1 with
      | (m1, .error f) => (m1, .error f)
      | (m1, .ok ((noBytes, rdt), s2)) =>
        let chunk' := wadd chunk noBytes
        let channelsE : Except Fail Nat :=
          match rdt with
          | none => .ok channels
          | some .TdmsString => .ok (wadd channels noBytes)
          | some other => (other.size).map (fun sz => wadd channels sz)
        match channelsE with
        | .error f => (m1, .error f)
        | .ok channels' =>
          let m2 :=
            if m1.live_objects.contains path then m1
            else { m1 with live_objects := m1.live_objects ++ [path] }
          objLoop e n m2 chunk' channels' s2

/-- `TdmsMap::read_segment_metadata`: finish the lead-in, read the object
table (carrying the previous segment's stored `chunk_size` when the
new-object-list bit is absent — `segments.last().unwrap()` panics on an empty
segment list), compute `no_chunks`, and emit the read plan. -/
def readSegmentMetadata (m : TdmsMap) (e : Endian) (seg : TdmsSegment) (s : List Nat) :
    TdmsMap × Except Fail TdmsSegment :=
  match takeU32 e s with
  | .error f => (m, .error f)
  | .ok (version, s1) =>
    match takeU64 e s1 with
    | .error f => (m, .error f)
    | .ok (next, s2) =>
      match takeU64 e s2 with
      | .error f => (m, .error f)
      | .ok (rawOff, s3) =>
        match takeU32 e s3 with
        | .error f => (m, .error f)
        | .ok (noObjects, s4) =>
          let carryE : TdmsMap × Except Fail (Nat × Nat) :=
            if !hasFlag seg.toc_mask kTocNewObjList then
              match m.segments.getLast? with
              | none => (m, .error .crash)
              | some prev => (m, .ok (prev.chunk_size, prev.chunk_size))
            else ({ m with live_objects := [] }, .ok (0, 0))
          match carryE with
          | (m1, .error f) => (m1, .error f)
          | (m1, .ok (chunk0, channels0)) =>
            match objLoop e noObjects m1 chunk0 channels0 s4 with
            | (m2, .error f) => (m2, .error f)
            | (m2, .ok (chunk, channels, _)) =>
              let seg1 := { seg with version_no := version, next_seg_offset := next,
                                     raw_data_offset := rawOff,
                                     no_chunks := if chunk > 0 then wsub next rawOff / chunk
                                                  else 0 }
              match updateIndexes m2 seg1 chunk channels with
              | (m3, .error f) => (m3, .error f)
              | (m3, .ok _) => (m3, .ok seg1)

/-- `TdmsMap::read_segment`: seek to the segment start, read the file tag and
ToC flags (always little-endian), then parse the rest under the segment's
declared byte order. -/
def readSegment (m : TdmsMap) (data : List Nat) (start : Nat) :
    TdmsMap × Except Fail TdmsSegment :=
  let s := data.drop start
  match takeU32 .le s with
  | .error f => (m, .error f)
  | .ok (tag, s1) =>
    match takeU32 .le s1 with
    | .error f => (m, .error f)
    | .ok (flags, s2) =>
      let seg := { TdmsSegment.new start with file_tag := tag, toc_mask := flags }
      let e := if hasFlag flags kTocBigEndian then Endian.be else Endian.le
      readSegmentMetadata m e seg s2

/-- `TdmsMap::map_segments`: walk the file while the next segment address is
inside it; an `UnexpectedEof` from a segment read ends the walk cleanly with
the index built so far; every other failure propagates.  `fuel` bounds the
walk (the source loop is unbounded); exhaustion is `Fail.outOfFuel`. -/
def mapSegments (data : List Nat) (flen : Nat) :
    Nat → TdmsMap → Nat → TdmsMap × Except Fail Unit
  | 0, m, _ => (m, .error .outOfFuel)
  | fuel + 1, m, addr =>
    if addr < flen then
      match readSegment m data addr with
      | (m1, .error (.err .ioUnexpectedEof)) => (m1, .ok ())
      | (m1, .error f) => (m1, .error f)
      | (m1, .ok seg) =>
        mapSegments data flen fuel { m1 with segments := m1.segments ++ [seg] }
          (wadd (wadd seg.next_seg_offset addr) HEADER_LEN)
    else (m, .ok ())

/-- `TdmsFile::open` restricted to its indexing content: build the `TdmsMap`
for a byte stream (the file length is the stream length). -/
def openTdms (data : List Nat) (fuel : Nat) : Except Fail TdmsMap :=
  match mapSegments data data.length fuel TdmsMap.new 0 with
  | (m, .ok _) => .ok m
  | (_, .error f) => .error f

/-! ## The loader (`tdms_datatypes.rs`)

The loader seeks to absolute positions, so it is embedded over a reader
state carrying the full byte stream and a position. -/

/-- Absolute-position reader state. -/
structure RdState where
  data : List Nat
  pos : Nat
deriving DecidableEq, Repr

/-- `read_exact` for `n` bytes at the current position. -/
def rdBytes (n : Nat) (r : RdState) : Except Fail (List Nat × RdState) :=
  if r.pos + n ≤ r.data.length then
    .ok ((r.data.drop r.pos).take n, { r with pos := r.pos + n })
  else .error (.err .ioUnexpectedEof)

/-- Read a `u32` at the current position. -/
def rdU32 (e : Endian) (r : RdState) : Except Fail (Nat × RdState) :=
  match rdBytes 4 r with
  | .error f => .error f
  | .ok (bs, r') => .ok (combine e bs, r')

/-- `SeekFrom::Current(stride as i64)`: the `u64` stride is cast to `i64`;
a resulting negative absolute position is an I/O error (not EOF). -/
def seekCur (r : RdState) (stride : Nat) : Except Fail RdState :=
  if stride < 2 ^ 63 then .ok { r with pos := r.pos + stride }
  else if W64 - stride ≤ r.pos then .ok { r with pos := r.pos - (W64 - stride) }
  else .error (.err .ioOther)

/-- A typed vector of loaded data (`DataTypeVec`), with strings as UTF-8
byte lists and floats as raw bit patterns. -/
inductive DataTypeVec where
  | VoidVec : List Unit → DataTypeVec
  | Boolean : List Bool → DataTypeVec
  | I8 : List Int → DataTypeVec
  | I16 : List Int → DataTypeVec
  | I32 : List Int → DataTypeVec
  | I64 : List Int → DataTypeVec
  | U8 : List Nat → DataTypeVec
  | U16 : List Nat → DataTypeVec
  | U32 : List Nat → DataTypeVec
  | U64 : List Nat → DataTypeVec
  | Float : List Nat → DataTypeVec
  | Double : List Nat → DataTypeVec
  | TdmsString : List (List Nat) → DataTypeVec
  | TimeStampVec : List (Int × Nat) → DataTypeVec
deriving DecidableEq, Repr

/-- The element count of a loaded vector. -/
def DataTypeVec.length : DataTypeVec → Nat
  | .VoidVec v => v.length
  | .Boolean v => v.length
  | .I8 v => v.length
  | .I16 v => v.length
  | .I32 v => v.length
  | .I64 v => v.length
  | .U8 v => v.length
  | .U16 v => v.length
  | .U32 v => v.length
  | .U64 v => v.length
  | .Float v => v.length
  | .Double v => v.length
  | .TdmsString v => v.length
  | .TimeStampVec v => v.length

/-- Bulk read of `n` fixed-size scalars of `sz` bytes each, decoded by
`dec` (the shared shape of the `byteorder` `read_*_into` primitives). -/
def readScalarN {α : Type} (sz : Nat) (dec : List Nat → α) :
    Nat → RdState → Except Fail (List α × RdState)
  | 0, r => .ok ([], r)
  | n + 1, r =>
    match rdBytes sz r with
    | .error f => .error f
    | .ok (bs, r1) =>
      match readScalarN sz dec n r1 with
      | .error f => .error f
      | .ok (tl, r2) => .ok (dec bs :: tl, r2)

/-- Read `n` consecutive `u32` values (the end-offset header of a string
block). -/
def rdU32s (e : Endian) : Nat → RdState → Except Fail (List Nat × RdState)
  | 0, r => .ok ([], r)
  | n + 1, r =>
    match rdU32 e r with
    | .error f => .error f
    | .ok (v, r1) =>
      match rdU32s e n r1 with
      | .error f => .error f
      | .ok (tl, r2) => .ok (v :: tl, r2)

/-- The chunk loop of `impl TdmsVector for String::read`: chunk `i` has
`lengths[i] - lengths[i-1]` bytes (`lengths[0]` for the first), wrapping as
Rust `u32` subtraction does, and each chunk must decode as UTF-8. -/
def strChunksLoop (prev : Option Nat) :
    List Nat → RdState → Except Fail (List (List Nat) × RdState)
  | [], r => .ok ([], r)
  | L :: rest, r =>
    let size := match prev with
      | none => L
      | some p => wsub32 L p
    match rdBytes size r with
    | .error f => .error f
    | .ok (bs, r1) =>
      if utf8Valid bs then
        match strChunksLoop (some L) rest r1 with
        | .error f => .error f
        | .ok (tl, r2) => .ok (bs :: tl, r2)
      else .error (.err .fromUtf8)

/-- `impl TdmsVector for String::read` on a buffer of `n` elements: first the
`n` 32-bit end offsets, then the payload chunks. -/
def stringReadN (e : Endian) (n : Nat) (r : RdState) :
    Except Fail (List (List Nat) × RdState) :=
  match rdU32s e n r with
  | .error f => .error f
  | .ok (lens, r1) => strChunksLoop none lens r1

/-- A bulk reader for one element type: the `TdmsVector` trait (default
element, `read` on an `n`-slice, and the tagged-vector constructor). -/
structure VecRdr (α : Type) where
  dflt : α
  readN : Endian → Nat → RdState → Except Fail (List α × RdState)
  toVec : List α → DataTypeVec

/-- `TdmsVector` instance for `bool` (byte `0` is `false`, else `true`). -/
def vecBool : VecRdr Bool :=
  { dflt := false,
    readN := fun e n r => readScalarN 1 (fun bs => combine e bs ≠ 0) n r,
    toVec := .Boolean }

/-- `TdmsVector` instance for `i8`. -/
def vecI8 : VecRdr Int :=
  { dflt := 0,
    readN := fun e n r => readScalarN 1 (fun bs => toSigned 8 (combine e bs)) n r,
    toVec := .I8 }

/-- `TdmsVector` instance for `i16`. -/
def vecI16 : VecRdr Int :=
  { dflt := 0,
    readN := fun e n r => readScalarN 2 (fun bs => toSigned 16 (combine e bs)) n r,
    toVec := .I16 }

/-- `TdmsVector` instance for `i32`. -/
def vecI32 : VecRdr Int :=
  { dflt := 0,
    readN := fun e n r => readScalarN 4 (fun bs => toSigned 32 (combine e bs)) n r,
    toVec := .I32 }

/-- `TdmsVector` instance for `i64`. -/
def vecI64 : VecRdr Int :=
  { dflt := 0,
    readN := fun e n r => readScalarN 8 (fun bs => toI64 (combine e bs)) n r,
    toVec := .I64 }

/-- `TdmsVector` instance for `u8`. -/
def vecU8 : VecRdr Nat :=
  { dflt := 0,
    readN := fun e n r => readScalarN 1 (fun bs => combine e bs) n r,
    toVec := .U8 }

/-- `TdmsVector` instance for `u16`. -/
def vecU16 : VecRdr Nat :=
  { dflt := 0,
    readN := fun e n r => readScalarN 2 (fun bs => combine e bs) n r,
    toVec := .U16 }

/-- `TdmsVector` instance for `u32`. -/
def vecU32 : VecRdr Nat :=
  { dflt := 0,
    readN := fun e n r => readScalarN 4 (fun bs => combine e bs) n r,
    toVec := .U32 }

/-- `TdmsVector` instance for `u64`. -/
def vecU64 : VecRdr Nat :=
  { dflt := 0,
    readN := fun e n r => readScalarN 8 (fun bs => combine e bs) n r,
    toVec := .U64 }

/-- `TdmsVector` instance for `f32` (raw bit pattern). -/
def vecF32 : VecRdr Nat :=
  { dflt := 0,
    readN := fun e n r => readScalarN 4 (fun bs => combine e bs) n r,
    toVec := .Float }

/-- `TdmsVector` instance for `f64` (raw bit pattern). -/
def vecF64 : VecRdr Nat :=
  { dflt := 0,
    readN := fun e n r => readScalarN 8 (fun bs => combine e bs) n r,
    toVec := .Double }

/-- `TdmsVector` instance for `TimeStamp` (`i64` seconds then `u64`
fraction). -/
def vecTimeStamp : VecRdr (Int × Nat) :=
  { dflt := (0, 0),
    readN := fun e n r =>
      readScalarN 16 (fun bs => (toI64 (combine e (bs.take 8)), combine e (bs.drop 8))) n r,
    toVec := .TimeStampVec }

/-- `TdmsVector` instance for `String`. -/
def vecString : VecRdr (List Nat) :=
  { dflt := [],
    readN := stringReadN,
    toVec := .TdmsString }

/-- The interleaved inner loop of `read_into_vec`: for each of the pair's
values, slice one element (a panic when out of bounds), bulk-read it, then
seek forward by the unwrapped stride. -/
def interLoop {α : Type} (V : VecRdr α) (e : Endian) (pr : ReadPair) :
    Nat → RdState → List α → Nat → Except Fail (List α × RdState)
  | 0, r, dv, _ => .ok (dv, r)
  | k + 1, r, dv, idx =>
    if idx + 1 ≤ dv.length then
      match pr.stride with
      | none => .error .crash
      | some st =>
        match V.readN e 1 r with
        | .error f => .error f
        | .ok (elems, r1) =>
          let dv' := dv.take idx ++ elems ++ dv.drop (idx + 1)
          match seekCur r1 st with
          | .error f => .error f
          | .ok r2 => interLoop V e pr k r2 dv' (idx + 1)
    else .error .crash

/-- The pair loop of `read_into_vec`: seek to the pair's start; contiguous
pairs bulk-read `no_values` elements into the slice `[i, i + no_values)`
(a panic when the slice is out of bounds); interleaved pairs run
`interLoop`. -/
def rivLoop {α : Type} (V : VecRdr α) (e : Endian) :
    List ReadPair → RdState → List α → Nat → Except Fail (List α × RdState)
  | [], r, dv, _ => .ok (dv, r)
  | pr :: rest, r, dv, i =>
    let r1 : RdState := { r with pos := pr.start_index }
    let nv := pr.no_values
    if pr.interleaved then
      match interLoop V e pr nv r1 dv i with
      | .error f => .error f
      | .ok (dv', r2) => rivLoop V e rest r2 dv' (i + nv)
    else
      if i + nv ≤ dv.length then
        match V.readN e nv r1 with
        | .error f => .error f
        | .ok (elems, r2) =>
          rivLoop V e rest r2 (dv.take i ++ elems ++ dv.drop (i + nv)) (i + nv)
      else .error .crash

/-- `read_into_vec`: allocate `total_values` defaults and execute the read
plan. -/
def readIntoVec {α : Type} (V : VecRdr α) (e : Endian) (r : RdState)
    (pairs : List ReadPair) (total : Nat) : Except Fail (List α × RdState) :=
  rivLoop V e pairs r (List.replicate total V.dflt) 0

/-- Run one typed branch of `read_data_vector`. -/
def runVec {α : Type} (V : VecRdr α) (e : Endian) (r : RdState)
    (pairs : List ReadPair) (total : Nat) : Except Fail (DataTypeVec × RdState) :=
  match readIntoVec V e r pairs total with
  | .error f => .error f
  | .ok (l, r') => .ok (V.toVec l, r')

/-- `read_data_vector`: dispatch on the object's raw type; `Void` yields an
empty vector without reading; types outside the source's match arms hit
`unimplemented!` (a panic). -/
def readDataVector (om : ObjectMap) (e : Endian) (r : RdState) :
    Except Fail (DataTypeVec × RdState) :=
  match om.last_object.raw_data_type with
  | none => .error (.err .objectHasNoRawData)
  | some t =>
    match t with
    | .Void => .ok (.VoidVec [], r)
    | .I8 => runVec vecI8 e r om.read_map om.total_values
    | .I16 => runVec vecI16 e r om.read_map om.total_values
    | .I32 => runVec vecI32 e r om.read_map om.total_values
    | .I64 => runVec vecI64 e r om.read_map om.total_values
    | .U8 => runVec vecU8 e r om.read_map om.total_values
    | .U16 => runVec vecU16 e r om.read_map om.total_values
    | .U32 => runVec vecU32 e r om.read_map om.total_values
    | .U64 => runVec vecU64 e r om.read_map om.total_values
    | .SingleFloat => runVec vecF32 e r om.read_map om.total_values
    | .DoubleFloat => runVec vecF64 e r om.read_map om.total_values
    | .Boolean => runVec vecBool e r om.read_map om.total_values
    | .TdmsString => runVec vecString e r om.read_map om.total_values
    | .TimeStamp => runVec vecTimeStamp e r om.read_map om.total_values
    | _ => .error .crash

/-- `TdmsFile::load_data`: look the path up (`ChannelNotFound` when absent)
and run the loader under the recorded endianness over the file bytes. -/
def loadData (m : TdmsMap) (data : List Nat) (path : TdmsPath) :
    Except Fail DataTypeVec :=
  match imapFind m.all_objects path with
  | none => .error (.err .channelNotFound)
  | some om =>
    match readDataVector om (if om.bigendian then .be else .le) ⟨data, 0⟩ with
    | .error f => .error f
    | .ok (v, _) => .ok v

/-! ## The specified string-block layout (for the refinement claim) -/

/-- Read `len` bytes at an absolute position (without moving a cursor). -/
def sliceBytes (data : List Nat) (start len : Nat) : Except Fail (List Nat) :=
  if start + len ≤ data.length then .ok ((data.drop start).take len)
  else .error (.err .ioUnexpectedEof)

/-- Elements of the specified string block: element `i` spans
`[offsets[i-1], offsets[i])` of the payload (`prev` is `offsets[i-1]`,
starting at `0`), each decoded as UTF-8. -/
def specChunks (data : List Nat) (base : Nat) : Nat → List Nat → Except Fail (List (List Nat))
  | _, [] => .ok []
  | prev, off :: rest =>
    match sliceBytes data (base + prev) (off - prev) with
    | .error f => .error f
    | .ok bs =>
      if utf8Valid bs then
        match specChunks data base off rest with
        | .error f => .error f
        | .ok tl => .ok (bs :: tl)
      else .error (.err .fromUtf8)

/-- Modelled from the spec: "Strings within a raw block are stored as: a
dense array of N end-offsets (each an unsigned 32-bit value within the
block), immediately followed by the concatenated UTF-8 byte payload.
Element i spans `[offsets[i-1], offsets[i])` within the payload (treating
`offsets[-1] = 0`)" — the layout the claim prescribes for each `ReadPair`
of a string channel. -/
def stringBlockSpec (e : Endian) (n : Nat) (r : RdState) :
    Except Fail (List (List Nat) × RdState) :=
  match rdU32s e n r with
  | .error f => .error f
  | .ok (offs, r1) =>
    match specChunks r1.data r1.pos 0 offs with
    | .error f => .error f
    | .ok elems => .ok (elems, { r1 with pos := r1.pos + (offs.getLast?.getD 0) })

/-! ## Concrete test inputs -/

/-- Little-endian 4-byte encoding of a `u32` value. -/
def u32le (n : Nat) : List Nat := [n % 256, n / 256 % 256, n / 65536 % 256, n / 16777216 % 256]

/-- Little-endian 8-byte encoding of a `u64` value. -/
def u64le (n : Nat) : List Nat := u32le (n % W32) ++ u32le (n / W32)

/-- A well-formed little-endian segment with the new-object-list bit: one
channel `"x"` of type `f64` with 3 values, followed by its 24 raw bytes. -/
def segX3f64 : List Nat :=
  [84, 68, 83, 109] ++ u32le 6 ++ u32le 0 ++ u64le 57 ++ u64le 33 ++
  u32le 1 ++ u32le 1 ++ [120] ++ u32le 20 ++ u32le 10 ++ u32le 1 ++ u64le 3 ++ u32le 0 ++
  List.replicate 24 0

/-- Two segments: `segX3f64`, then a segment without the new-object-list bit
that declares no objects but carries 24 raw bytes (one more chunk of the
carried-over channel, per the format). -/
def fileCarry : List Nat :=
  segX3f64 ++ [84, 68, 83, 109] ++ u32le 10 ++ u32le 0 ++ u64le 28 ++ u64le 4 ++ u32le 0 ++
  List.replicate 24 0

/-- One new-object-list segment declaring a single object `"x"` with the
no-raw-data discriminator `0xFFFF_FFFF` and no properties. -/
def fileNoRaw : List Nat :=
  [84, 68, 83, 109] ++ u32le 6 ++ u32le 0 ++ u64le 17 ++ u64le 17 ++
  u32le 1 ++ u32le 1 ++ [120] ++ u32le 0xFFFFFFFF ++ u32le 0

/-- `segX3f64` followed by a corrupted tail segment: its header declares the
all-ones sentinel `next_seg_offset`, its metadata declares one object with
the fresh path `"y"`, and the file ends right after that path. -/
def fileCorruptTail : List Nat :=
  segX3f64 ++ [84, 68, 83, 109] ++ u32le 6 ++ u32le 0 ++ u64le 0xFFFFFFFFFFFFFFFF ++
  u64le 0 ++ u32le 1 ++ u32le 1 ++ [121]

/-- A single segment whose header declares `next_seg_offset = 100` although
the file ends right after the metadata (no raw bytes are present). -/
def fileLyingHeader : List Nat :=
  [84, 68, 83, 109] ++ u32le 6 ++ u32le 0 ++ u64le 100 ++ u64le 33 ++
  u32le 1 ++ u32le 1 ++ [120] ++ u32le 20 ++ u32le 10 ++ u32le 1 ++ u64le 3 ++ u32le 0

/-- Two segments: `"x"` as one `f64` value (8 raw bytes), then a
new-object-list segment redeclaring `"x"` with raw type `Void` and zero
values. -/
def fileVoidRetype : List Nat :=
  ([84, 68, 83, 109] ++ u32le 6 ++ u32le 0 ++ u64le 41 ++ u64le 33 ++
   u32le 1 ++ u32le 1 ++ [120] ++ u32le 20 ++ u32le 10 ++ u32le 1 ++ u64le 1 ++ u32le 0 ++
   List.replicate 8 0) ++
  ([84, 68, 83, 109] ++ u32le 6 ++ u32le 0 ++ u64le 33 ++ u64le 33 ++
   u32le 1 ++ u32le 1 ++ [120] ++ u32le 20 ++ u32le 0 ++ u32le 1 ++ u64le 0 ++ u32le 0)

/-- An object record tail shared by the two DAQmx discriminator evaluations:
size info for one `f64` value, then three zero `u32` words. -/
def daqmxTail : List Nat :=
  u32le 10 ++ u32le 1 ++ u64le 1 ++ u32le 0 ++ u32le 0 ++ u32le 0

/-- Raw-block bytes for the interleaved string-pair evaluation. -/
def strPairData : List Nat := [1, 0, 0, 0, 65, 1, 0, 0, 0, 66]

/-- An interleaved string `ReadPair` over `strPairData`. -/
def strPair : ReadPair := { start_index := 0, no_values := 2, interleaved := true, stride := some 0 }

/-! ## C1 -/

/-- C1: evaluation at the failing input.  The claim says the chunk size of a
segment without `NewObjectList` carries over the previous segment's
`chunk_size`, so that the second segment of `fileCarry` (24 raw bytes for
the carried-over 24-byte-per-chunk channel) should get `no_chunks = 1` and
append one more `ReadPair`.  The code stores `chunk_size = 0` for every
segment (the field is never assigned), so the carried base is `0`, the
second segment gets `no_chunks = 0`, and the channel keeps a single
`ReadPair` and 3 total values. -/
theorem c1_chunk_size_never_carried :
    (openTdms fileCarry 5).toOption.map (fun m =>
        (m.segments.map fun sg => (sg.chunk_size, sg.no_chunks),
         (imapFind m.all_objects [120]).map fun om : ObjectMap =>
           (om.read_map.length, om.total_values))) =
      some ([(0, 1), (0, 0)], some (1, 3)) := by
  rfl

/-! ## C2 -/

/-- C2: evaluation at the failing input.  A record with discriminator
`0x6913_0000` (first conjuncts) is parsed through the generic
fresh-size-info branch: the follow-up words are consumed as the property
count and `daqmx_info` stays `none`, leaving 8 bytes of the descriptor
unread.  An identically shaped record with `0x6912_0000` (last conjuncts)
does read the DAQmx descriptor.  The cause is the source constant
`DIGITAL_LINE_SCALER = 0x6912_0000`. -/
theorem c2_digital_line_scaler_misparsed :
    (updateReadObject TdmsMap.new [120] .le (u32le 0x69130000 ++ daqmxTail)).2 =
        .ok ((8, some .DoubleFloat), u32le 0 ++ u32le 0) ∧
    (imapFind (updateReadObject TdmsMap.new [120] .le
        (u32le 0x69130000 ++ daqmxTail)).1.all_objects [120]).map
        (fun om : ObjectMap => om.last_object.daqmx_info) = some none ∧
    (updateReadObject TdmsMap.new [120] .le (u32le 0x69120000 ++ daqmxTail)).2 =
        .ok ((8, some .DoubleFloat), []) ∧
    (imapFind (updateReadObject TdmsMap.new [120] .le
        (u32le 0x69120000 ++ daqmxTail)).1.all_objects [120]).map
        (fun om : ObjectMap => om.last_object.daqmx_info) =
      some (some { formatvec_size := 0, scalers := [], widthvec_size := 0, widthvec := [] }) := by
  exact ⟨rfl, rfl, rfl, rfl⟩

/-! ## C3 -/

/-- C3, counterexample: in a `NewObjectList` segment, an object declared with
the no-raw-data discriminator `0xFFFF_FFFF` (and contributing no raw bytes)
ends up in `live_objects`, which the claim says must not happen. -/
theorem c3_counterexample_no_raw_data_object_is_live :
    (openTdms fileNoRaw 5).toOption.map (fun m =>
        (m.live_objects,
         (imapFind m.all_objects [120]).map fun om : ObjectMap =>
           (om.last_object.index_info_len, om.last_object.no_bytes))) =
      some ([[120]], some (NO_RAW_DATA, 0)) := by
  rfl

/-! ## C4 -/

/-- C4, counterexample: `fileCorruptTail` ends with a sentinel-offset segment
whose metadata is truncated mid-object-table.  `open` does succeed and the
first segment's channel keeps its read plan, but the corrupted segment does
not "contribute nothing": the fresh path `"y"` parsed before the EOF is
already recorded in `all_objects` (with an empty plan), and the live list
was already cleared. -/
theorem c4_counterexample_corrupt_tail_contributes :
    (openTdms fileCorruptTail 5).toOption.map (fun m =>
        (m.all_objects.map Prod.fst,
         m.live_objects,
         (imapFind m.all_objects [121]).map (fun om : ObjectMap =>
           (om.read_map.length, om.last_object.object_path)),
         (imapFind m.all_objects [120]).map fun om : ObjectMap =>
           (om.read_map.length, om.total_values))) =
      some ([[120], [121]], [], some (0, [121]), some (1, 3)) := by
  rfl

/-! ## C5 -/

/-- C5, counterexample: an object first mentioned with the no-raw-data
discriminator only (so it never acquired a raw-data descriptor —
`raw_data_type` is still `none`) and then redeclared with discriminator
`0x0000_0000` parses successfully; the claim requires `NoPreviousObject`
here.  The code only checks that the path was seen before. -/
theorem c5_counterexample_carry_without_descriptor_succeeds :
    (updateReadObject
        ((updateReadObject TdmsMap.new [120] .le (u32le 0xFFFFFFFF ++ u32le 0)).1)
        [120] .le (u32le 0 ++ u32le 0)).2 = .ok ((0, none), []) ∧
    (imapFind ((updateReadObject TdmsMap.new [120] .le
        (u32le 0xFFFFFFFF ++ u32le 0)).1).all_objects [120]).map
      (fun om : ObjectMap => om.last_object.raw_data_type) = some none := by
  exact ⟨rfl, rfl⟩

/-! ## C6 -/

/-- C6, counterexample: `open` accepts `fileLyingHeader` (61 bytes), whose
only segment declares `next_seg_offset = 100`; both emitted `ReadPair`s for
the 3-value `f64` channel violate
`start_offset + value_count × sample_size ≤ file_length`. -/
theorem c6_counterexample_read_pairs_beyond_file :
    (openTdms fileLyingHeader 5).toOption.map (fun m =>
        (imapFind m.all_objects [120]).map fun om : ObjectMap =>
          om.read_map.map fun pr =>
            decide (pr.start_index + pr.no_values * 8 ≤ fileLyingHeader.length)) =
      some (some [false, false]) := by
  rfl

/-! ## C7 -/

/-- C7, counterexample: in `fileVoidRetype` the channel `"x"` acquires one
`f64` value (`total_values = 1`) and is then redeclared with raw type
`Void`; `load_data` succeeds and returns the empty `Void` vector, whose
length 0 differs from `total_values = 1`. -/
theorem c7_counterexample_void_load_empty :
    (openTdms fileVoidRetype 5).toOption.map (fun m =>
        ((imapFind m.all_objects [120]).map (fun om : ObjectMap =>
            (om.total_values, om.last_object.raw_data_type, om.read_map.length)),
         (loadData m fileVoidRetype [120]).toOption.map DataTypeVec.length)) =
      some (some (1, some .Void, 1), some 0) := by
  rfl

/-! ## C8 -/

/-- C8, counterexample: for an interleaved string `ReadPair` the loader does
not read the pair's `value_count` end-offsets first — it alternates one
offset with one payload chunk.  On `strPairData` the loader returns the
elements `"A", "B"`, while the claim's prescribed layout (`stringBlockSpec`)
reads offsets `1` and `0x141` and fails with an unexpected EOF. -/
theorem c8_counterexample_interleaved_string_pair :
    (readIntoVec vecString .le ⟨strPairData, 0⟩ [strPair] 2).toOption.map Prod.fst =
        some [[65], [66]] ∧
    stringBlockSpec .le 2 ⟨strPairData, 0⟩ = .error (.err .ioUnexpectedEof) := by
  exact ⟨rfl, rfl⟩

/-! ## Stepping lemmas for the byte-stream primitives -/

/-- `takeBytes` succeeds exactly on streams long enough. -/
theorem takeBytes_ok (n : Nat) (s : List Nat) (h : n ≤ s.length) :
    takeBytes n s = .ok (s.take n, s.drop n) := by
  simp [takeBytes, h]

/-- `takeU32` on a long-enough stream. -/
theorem takeU32_ok (e : Endian) (s : List Nat) (h : 4 ≤ s.length) :
    takeU32 e s = .ok (combine e (s.take 4), s.drop 4) := by
  simp [takeU32, takeBytes_ok 4 s h]

/-- `takeU64` on a long-enough stream. -/
theorem takeU64_ok (e : Endian) (s : List Nat) (h : 8 ≤ s.length) :
    takeU64 e s = .ok (combine e (s.take 8), s.drop 8) := by
  simp [takeU64, takeBytes_ok 8 s h]

/-! ## C9 -/

/-- C9: for every file of at least 32 bytes (enough to parse the first
segment's lead-in and object count) whose ToC flag word — bytes 4..8, always
little-endian — does not set the `NewObjectList` bit, `open` reaches
`segments.last().unwrap()` on the empty segment vector and panics instead of
returning an error value. -/
theorem c9_open_panics_without_new_object_list (data : List Nat) (fuel : Nat)
    (hlen : 32 ≤ data.length)
    (hflag : hasFlag (combine .le ((data.drop 4).take 4)) kTocNewObjList = false) :
    openTdms data (fuel + 1) = .error .crash := by
  have h0 : 0 < data.length := by omega
  have ha : 4 ≤ data.length := by omega
  have hb : 4 ≤ (List.drop 4 data).length := by rw [List.length_drop]; omega
  have hc : 4 ≤ (List.drop 8 data).length := by rw [List.length_drop]; omega
  have hd : 8 ≤ (List.drop 12 data).length := by rw [List.length_drop]; omega
  have he2 : 8 ≤ (List.drop 20 data).length := by rw [List.length_drop]; omega
  have hf : 4 ≤ (List.drop 28 data).length := by rw [List.length_drop]; omega
  simp only [openTdms, mapSegments, readSegment, readSegmentMetadata, List.drop_zero,
    TdmsSegment.new, TdmsMap.new, if_pos h0, takeU32_ok, takeU64_ok, ha, hb, hc, hd, he2, hf,
    List.drop_drop, hflag, Bool.not_false, if_true, List.getLast?_nil]

/-- C9, witness: a concrete 32-byte file whose ToC word is `10` (meta + raw,
no new-object-list bit); `open` panics on it. -/
def fileNoNewList : List Nat :=
  [84, 68, 83, 109] ++ u32le 10 ++ u32le 0 ++ u64le 3 ++ u64le 3 ++ u32le 0

/-- C9, witness at `fileNoNewList`. -/
theorem c9_witness :
    32 ≤ fileNoNewList.length ∧
    hasFlag (combine .le ((fileNoNewList.drop 4).take 4)) kTocNewObjList = false ∧
    openTdms fileNoNewList 1 = .error .crash :=
  ⟨by decide, by decide,
    c9_open_panics_without_new_object_list fileNoNewList 0 (by decide) (by decide)⟩

/-! ## C7: length lemmas for the loader -/

/-- A bulk reader delivers as many elements as requested. -/
def readNLen {α : Type} (V : VecRdr α) : Prop :=
  ∀ e n r l r', V.readN e n r = .ok (l, r') → l.length = n

/-- `readScalarN` delivers `n` elements. -/
theorem readScalarN_length {α : Type} (sz : Nat) (dec : List Nat → α) :
    ∀ (n : Nat) (r : RdState) (l : List α) (r' : RdState),
      readScalarN sz dec n r = .ok (l, r') → l.length = n := by
  intro n
  induction n with
  | zero =>
    intro r l r' h
    simp only [readScalarN, Except.ok.injEq, Prod.mk.injEq] at h
    simp [← h.1]
  | succ k ih =>
    intro r l r' h
    simp only [readScalarN] at h
    cases hb : rdBytes sz r with
    | error f => simp [hb] at h
    | ok pr =>
      obtain ⟨bs, r1⟩ := pr
      simp only [hb] at h
      cases hrec : readScalarN sz dec k r1 with
      | error f => simp [hrec] at h
      | ok pr2 =>
        obtain ⟨tl, r2⟩ := pr2
        simp only [hrec] at h
        simp only [Except.ok.injEq, Prod.mk.injEq] at h
        have htl := ih r1 tl r2 hrec
        rw [← h.1]
        simp [htl]

/-- `rdU32s` delivers `n` offsets. -/
theorem rdU32s_length (e : Endian) :
    ∀ (n : Nat) (r : RdState) (l : List Nat) (r' : RdState),
      rdU32s e n r = .ok (l, r') → l.length = n := by
  intro n
  induction n with
  | zero =>
    intro r l r' h
    simp only [rdU32s, Except.ok.injEq, Prod.mk.injEq] at h
    simp [← h.1]
  | succ k ih =>
    intro r l r' h
    simp only [rdU32s] at h
    cases hb : rdU32 e r with
    | error f => simp [hb] at h
    | ok pr =>
      obtain ⟨v, r1⟩ := pr
      simp only [hb] at h
      cases hrec : rdU32s e k r1 with
      | error f => simp [hrec] at h
      | ok pr2 =>
        obtain ⟨tl, r2⟩ := pr2
        simp only [hrec] at h
        simp only [Except.ok.injEq, Prod.mk.injEq] at h
        have htl := ih r1 tl r2 hrec
        rw [← h.1]
        simp [htl]

/-- `strChunksLoop` delivers one element per offset. -/
theorem strChunksLoop_length :
    ∀ (lens : List Nat) (prev : Option Nat) (r : RdState) (l : List (List Nat)) (r' : RdState),
      strChunksLoop prev lens r = .ok (l, r') → l.length = lens.length := by
  intro lens
  induction lens with
  | nil =>
    intro prev r l r' h
    simp only [strChunksLoop, Except.ok.injEq, Prod.mk.injEq] at h
    simp [← h.1]
  | cons L rest ih =>
    intro prev r l r' h
    simp only [strChunksLoop] at h
    generalize hsz : (match prev with | none => L | some p => wsub32 L p) = size at h
    cases hb : rdBytes size r with
    | error f => simp [hb] at h
    | ok pr =>
      obtain ⟨bs, r1⟩ := pr
      simp only [hb] at h
      by_cases hu : utf8Valid bs
      · rw [if_pos hu] at h
        cases hrec : strChunksLoop (some L) rest r1 with
        | error f => simp [hrec] at h
        | ok pr2 =>
          obtain ⟨tl, r2⟩ := pr2
          simp only [hrec] at h
          simp only [Except.ok.injEq, Prod.mk.injEq] at h
          have htl := ih (some L) r1 tl r2 hrec
          rw [← h.1]
          simp [htl]
      · simp [hb, hu] at h

/-- The string bulk reader delivers `n` elements. -/
theorem vecString_len : readNLen vecString := by
  intro e n r l r' h
  simp only [vecString, stringReadN] at h
  cases hread : rdU32s e n r with
  | error f => simp [hread] at h
  | ok pr =>
    obtain ⟨lens, r1⟩ := pr
    simp only [hread] at h
    have h1 := rdU32s_length e n r lens r1 hread
    have h2 := strChunksLoop_length lens none r1 l r' h
    omega

/-- Writing an in-bounds slice of matching length preserves list length. -/
theorem splice_length {α : Type} (dv elems : List α) (i nv : Nat)
    (hb : i + nv ≤ dv.length) (he : elems.length = nv) :
    (dv.take i ++ elems ++ dv.drop (i + nv)).length = dv.length := by
  simp [List.length_append, List.length_take, List.length_drop]
  omega

/-- The interleaved inner loop preserves the destination length. -/
theorem interLoop_length {α : Type} (V : VecRdr α) (hV : readNLen V) (e : Endian)
    (pr : ReadPair) :
    ∀ (k : Nat) (r : RdState) (dv : List α) (idx : Nat) (dv' : List α) (r' : RdState),
      interLoop V e pr k r dv idx = .ok (dv', r') → dv'.length = dv.length := by
  intro k
  induction k with
  | zero =>
    intro r dv idx dv' r' h
    simp only [interLoop, Except.ok.injEq, Prod.mk.injEq] at h
    simp [← h.1]
  | succ kk ih =>
    intro r dv idx dv' r' h
    simp only [interLoop] at h
    by_cases hb : idx + 1 ≤ dv.length
    · rw [if_pos hb] at h
      cases hst : pr.stride with
      | none => simp [hst] at h
      | some st =>
        simp only [hst] at h
        cases hrd : V.readN e 1 r with
        | error f => simp [hrd] at h
        | ok p1 =>
          obtain ⟨elems, r1⟩ := p1
          simp only [hrd] at h
          cases hsk : seekCur r1 st with
          | error f => simp [hsk] at h
          | ok r2 =>
            simp only [hsk] at h
            have hlen1 : elems.length = 1 := hV e 1 r elems r1 hrd
            have hrec := ih r2 (dv.take idx ++ elems ++ dv.drop (idx + 1)) (idx + 1) dv' r' h
            rw [hrec, splice_length dv elems idx 1 hb hlen1]
    · simp [hb] at h

/-- The pair loop preserves the destination length. -/
theorem rivLoop_length {α : Type} (V : VecRdr α) (hV : readNLen V) (e : Endian) :
    ∀ (pairs : List ReadPair) (r : RdState) (dv : List α) (i : Nat)
      (dv' : List α) (r' : RdState),
      rivLoop V e pairs r dv i = .ok (dv', r') → dv'.length = dv.length := by
  intro pairs
  induction pairs with
  | nil =>
    intro r dv i dv' r' h
    simp only [rivLoop, Except.ok.injEq, Prod.mk.injEq] at h
    simp [← h.1]
  | cons pr rest ih =>
    intro r dv i dv' r' h
    simp only [rivLoop] at h
    by_cases hint : pr.interleaved
    · rw [if_pos hint] at h
      cases hil : interLoop V e pr pr.no_values { r with pos := pr.start_index } dv i with
      | error f => simp [hil] at h
      | ok p1 =>
        obtain ⟨dv1, r1⟩ := p1
        simp only [hil] at h
        have h1 := interLoop_length V hV e pr pr.no_values _ dv i dv1 r1 hil
        have h2 := ih r1 dv1 (i + pr.no_values) dv' r' h
        omega
    · rw [if_neg hint] at h
      by_cases hb : i + pr.no_values ≤ dv.length
      · rw [if_pos hb] at h
        cases hrd : V.readN e pr.no_values { r with pos := pr.start_index } with
        | error f => simp [hrd] at h
        | ok p1 =>
          obtain ⟨elems, r1⟩ := p1
          simp only [hrd] at h
          have hlen : elems.length = pr.no_values := hV e pr.no_values _ elems r1 hrd
          have h2 := ih r1 _ (i + pr.no_values) dv' r' h
          rw [h2, splice_length dv elems i pr.no_values hb hlen]
      · simp [hb] at h

/-- A successful `read_into_vec` yields exactly `total` elements. -/
theorem readIntoVec_length {α : Type} (V : VecRdr α) (hV : readNLen V) (e : Endian)
    (r : RdState) (pairs : List ReadPair) (total : Nat) (l : List α) (r' : RdState)
    (h : readIntoVec V e r pairs total = .ok (l, r')) : l.length = total := by
  have := rivLoop_length V hV e pairs r (List.replicate total V.dflt) 0 l r' h
  simpa using this

/-- A successful typed branch yields a vector of exactly `total` elements,
provided the tagged constructor preserves length. -/
theorem runVec_length {α : Type} (V : VecRdr α) (hV : readNLen V)
    (htv : ∀ l : List α, (V.toVec l).length = l.length) (e : Endian) (r : RdState)
    (pairs : List ReadPair) (total : Nat) (v : DataTypeVec) (r' : RdState)
    (h : runVec V e r pairs total = .ok (v, r')) : v.length = total := by
  simp only [runVec] at h
  cases hrd : readIntoVec V e r pairs total with
  | error f => simp [hrd] at h
  | ok p1 =>
    obtain ⟨l, r1⟩ := p1
    simp only [hrd] at h
    simp only [Except.ok.injEq, Prod.mk.injEq] at h
    rw [← h.1, htv]
    exact readIntoVec_length V hV e r pairs total l r1 hrd

/-- All fixed-size bulk readers deliver as many elements as requested. -/
theorem fixed_readers_len :
    readNLen vecBool ∧ readNLen vecI8 ∧ readNLen vecI16 ∧ readNLen vecI32 ∧
    readNLen vecI64 ∧ readNLen vecU8 ∧ readNLen vecU16 ∧ readNLen vecU32 ∧
    readNLen vecU64 ∧ readNLen vecF32 ∧ readNLen vecF64 ∧ readNLen vecTimeStamp := by
  refine ⟨?_, ?_, ?_, ?_, ?_, ?_, ?_, ?_, ?_, ?_, ?_, ?_⟩ <;>
    exact fun e n r l r' h => readScalarN_length _ _ n r l r' h

/-- C7 (amended): for every indexed object whose latest raw type is not
`Void`, a successful `load_data` returns a typed vector of exactly
`total_values` elements — the single destination array is allocated at
`total_values` and every write preserves its length.  (The `Void` branch of
the source returns an empty vector regardless of `total_values`.) -/
theorem c7_amended_load_length (om : ObjectMap) (e : Endian) (r r' : RdState)
    (v : DataTypeVec) (hok : readDataVector om e r = .ok (v, r'))
    (hnv : om.last_object.raw_data_type ≠ some .Void) :
    v.length = om.total_values := by
  rcases hrt : om.last_object.raw_data_type with _ | t
  · simp [readDataVector, hrt] at hok
  · cases t with
    | Void => exact absurd hrt hnv
    | I8 =>
      simp only [readDataVector, hrt] at hok
      exact runVec_length vecI8 fixed_readers_len.2.1 (fun l => rfl) e r
        om.read_map om.total_values v r' hok
    | I16 =>
      simp only [readDataVector, hrt] at hok
      exact runVec_length vecI16 fixed_readers_len.2.2.1 (fun l => rfl) e r
        om.read_map om.total_values v r' hok
    | I32 =>
      simp only [readDataVector, hrt] at hok
      exact runVec_length vecI32 fixed_readers_len.2.2.2.1 (fun l => rfl) e r
        om.read_map om.total_values v r' hok
    | I64 =>
      simp only [readDataVector, hrt] at hok
      exact runVec_length vecI64 fixed_readers_len.2.2.2.2.1 (fun l => rfl) e r
        om.read_map om.total_values v r' hok
    | U8 =>
      simp only [readDataVector, hrt] at hok
      exact runVec_length vecU8 fixed_readers_len.2.2.2.2.2.1 (fun l => rfl) e r
        om.read_map om.total_values v r' hok
    | U16 =>
      simp only [readDataVector, hrt] at hok
      exact runVec_length vecU16 fixed_readers_len.2.2.2.2.2.2.1 (fun l => rfl) e r
        om.read_map om.total_values v r' hok
    | U32 =>
      simp only [readDataVector, hrt] at hok
      exact runVec_length vecU32 fixed_readers_len.2.2.2.2.2.2.2.1 (fun l => rfl) e r
        om.read_map om.total_values v r' hok
    | U64 =>
      simp only [readDataVector, hrt] at hok
      exact runVec_length vecU64 fixed_readers_len.2.2.2.2.2.2.2.2.1 (fun l => rfl) e r
        om.read_map om.total_values v r' hok
    | SingleFloat =>
      simp only [readDataVector, hrt] at hok
      exact runVec_length vecF32 fixed_readers_len.2.2.2.2.2.2.2.2.2.1 (fun l => rfl) e r
        om.read_map om.total_values v r' hok
    | DoubleFloat =>
      simp only [readDataVector, hrt] at hok
      exact runVec_length vecF64 fixed_readers_len.2.2.2.2.2.2.2.2.2.2.1 (fun l => rfl) e r
        om.read_map om.total_values v r' hok
    | Boolean =>
      simp only [readDataVector, hrt] at hok
      exact runVec_length vecBool fixed_readers_len.1 (fun l => rfl) e r
        om.read_map om.total_values v r' hok
    | TdmsString =>
      simp only [readDataVector, hrt] at hok
      exact runVec_length vecString vecString_len (fun l => rfl) e r
        om.read_map om.total_values v r' hok
    | TimeStamp =>
      simp only [readDataVector, hrt] at hok
      exact runVec_length vecTimeStamp fixed_readers_len.2.2.2.2.2.2.2.2.2.2.2
        (fun l => rfl) e r om.read_map om.total_values v r' hok
    | ExtendedFloat => simp [readDataVector, hrt] at hok
    | SingleFloatWithUnit => simp [readDataVector, hrt] at hok
    | DoubleFloatWithUnit => simp [readDataVector, hrt] at hok
    | ExtendedFloatWithUnit => simp [readDataVector, hrt] at hok
    | FixedPoint => simp [readDataVector, hrt] at hok
    | ComplexSingleFloat => simp [readDataVector, hrt] at hok
    | ComplexDoubleFloat => simp [readDataVector, hrt] at hok
    | DAQmxRawData => simp [readDataVector, hrt] at hok

/-- A one-pair `f64` object map used as the C7 witness input. -/
def c7WitnessOm : ObjectMap :=
  { last_object := { raw_data_type := some .DoubleFloat, no_raw_vals := some 1, no_bytes := 8 },
    read_map := [{ start_index := 0, no_values := 1, interleaved := false, stride := none }],
    total_bytes := 8, total_values := 1 }

/-- C7, witness: loading the one-value `f64` object map from eight zero bytes
succeeds and the amended theorem applies to it. -/
theorem c7_witness :
    readDataVector c7WitnessOm .le ⟨List.replicate 8 0, 0⟩ =
        .ok (.Double [0], ⟨List.replicate 8 0, 8⟩) ∧
    (DataTypeVec.Double [0]).length = c7WitnessOm.total_values :=
  ⟨by rfl,
   c7_amended_load_length c7WitnessOm .le ⟨List.replicate 8 0, 0⟩
     ⟨List.replicate 8 0, 8⟩ (.Double [0]) (by rfl) (by decide)⟩

/-! ## C5: error taxonomy of the object parser -/

/-- `takeBytes` only fails with unexpected EOF. -/
theorem takeBytes_err (n : Nat) (s : List Nat) (f : Fail)
    (h : takeBytes n s = .error f) : f = .err .ioUnexpectedEof := by
  unfold takeBytes at h
  split at h <;> simp_all

/-- `takeU32` only fails with unexpected EOF. -/
theorem takeU32_err (e : Endian) (s : List Nat) (f : Fail)
    (h : takeU32 e s = .error f) : f = .err .ioUnexpectedEof := by
  unfold takeU32 at h
  cases hb : takeBytes 4 s with
  | error g => simp only [hb] at h; cases h; exact takeBytes_err 4 s f hb
  | ok pr => simp [hb] at h

/-- `takeU64` only fails with unexpected EOF. -/
theorem takeU64_err (e : Endian) (s : List Nat) (f : Fail)
    (h : takeU64 e s = .error f) : f = .err .ioUnexpectedEof := by
  unfold takeU64 at h
  cases hb : takeBytes 8 s with
  | error g => simp only [hb] at h; cases h; exact takeBytes_err 8 s f hb
  | ok pr => simp [hb] at h

/-- `read_string` never fails with `NoPreviousObject`. -/
theorem readTdmsString_err (e : Endian) (s : List Nat) (f : Fail)
    (h : readTdmsString e s = .error f) : f ≠ .err .noPreviousObject := by
  unfold readTdmsString at h
  cases h1 : takeU32 e s with
  | error g =>
    simp only [h1] at h; cases h
    have := takeU32_err e s f h1; simp [this]
  | ok pr =>
    obtain ⟨len, s1⟩ := pr
    simp only [h1] at h
    cases h2 : takeBytes len s1 with
    | error g =>
      simp only [h2] at h; cases h
      have := takeBytes_err len s1 f h2; simp [this]
    | ok pr2 =>
      obtain ⟨bs, s2⟩ := pr2
      simp only [h2] at h
      split at h
      · cases h
      · cases h; decide

set_option maxHeartbeats 1000000 in
/-- `DataTypeRaw::from_u32` never fails with `NoPreviousObject`. -/
theorem fromU32_err (raw : Nat) (f : Fail)
    (h : DataTypeRaw.fromU32 raw = .error f) : f ≠ .err .noPreviousObject := by
  simp only [DataTypeRaw.fromU32] at h
  by_cases c0 : raw = 0
  · rw [if_pos c0] at h; cases h
  rw [if_neg c0] at h
  by_cases c1 : raw = 1
  · rw [if_pos c1] at h; cases h
  rw [if_neg c1] at h
  by_cases c2 : raw = 2
  · rw [if_pos c2] at h; cases h
  rw [if_neg c2] at h
  by_cases c3 : raw = 3
  · rw [if_pos c3] at h; cases h
  rw [if_neg c3] at h
  by_cases c4 : raw = 4
  · rw [if_pos c4] at h; cases h
  rw [if_neg c4] at h
  by_cases c5 : raw = 5
  · rw [if_pos c5] at h; cases h
  rw [if_neg c5] at h
  by_cases c6 : raw = 6
  · rw [if_pos c6] at h; cases h
  rw [if_neg c6] at h
  by_cases c7 : raw = 7
  · rw [if_pos c7] at h; cases h
  rw [if_neg c7] at h
  by_cases c8 : raw = 8
  · rw [if_pos c8] at h; cases h
  rw [if_neg c8] at h
  by_cases c9 : raw = 9
  · rw [if_pos c9] at h; cases h
  rw [if_neg c9] at h
  by_cases c10 : raw = 10
  · rw [if_pos c10] at h; cases h
  rw [if_neg c10] at h
  by_cases c11 : raw = 11
  · rw [if_pos c11] at h; cases h
  rw [if_neg c11] at h
  by_cases c12 : raw = 0x19
  · rw [if_pos c12] at h; cases h
  rw [if_neg c12] at h
  by_cases c13 : raw = 12
  · rw [if_pos c13] at h; cases h
  rw [if_neg c13] at h
  by_cases c14 : raw = 13
  · rw [if_pos c14] at h; cases h
  rw [if_neg c14] at h
  by_cases c15 : raw = 0x20
  · rw [if_pos c15] at h; cases h
  rw [if_neg c15] at h
  by_cases c16 : raw = 0x21
  · rw [if_pos c16] at h; cases h
  rw [if_neg c16] at h
  by_cases c17 : raw = 0x44
  · rw [if_pos c17] at h; cases h
  rw [if_neg c17] at h
  by_cases c18 : raw = 0x4F
  · rw [if_pos c18] at h; cases h
  rw [if_neg c18] at h
  by_cases c19 : raw = 0x0008000c
  · rw [if_pos c19] at h; cases h
  rw [if_neg c19] at h
  by_cases c20 : raw = 0x0010000d
  · rw [if_pos c20] at h; cases h
  rw [if_neg c20] at h
  by_cases c21 : raw = 0xFFFFFFFF
  · rw [if_pos c21] at h; cases h
  rw [if_neg c21] at h
  cases h; decide

/-- `read_datatype` never fails with `NoPreviousObject`. -/
theorem readDatatype_err (e : Endian) (t : DataTypeRaw) (s : List Nat) (f : Fail)
    (h : readDatatype e t s = .error f) : f ≠ .err .noPreviousObject := by
  cases t with
  | TdmsString =>
    simp only [readDatatype] at h
    cases h1 : readTdmsString e s with
    | error g => simp only [h1] at h; cases h; exact readTdmsString_err e s f h1
    | ok pr => obtain ⟨v, s1⟩ := pr; simp [h1] at h
  | U8 =>
    simp only [readDatatype] at h
    cases h1 : takeBytes 1 s with
    | error g => simp only [h1] at h; cases h; have := takeBytes_err 1 s f h1; simp [this]
    | ok pr => obtain ⟨v, s1⟩ := pr; simp [h1] at h
  | U16 =>
    simp only [readDatatype] at h
    cases h1 : takeBytes 2 s with
    | error g => simp only [h1] at h; cases h; have := takeBytes_err 2 s f h1; simp [this]
    | ok pr => obtain ⟨v, s1⟩ := pr; simp [h1] at h
  | U32 =>
    simp only [readDatatype] at h
    cases h1 : takeU32 e s with
    | error g => simp only [h1] at h; cases h; have := takeU32_err e s f h1; simp [this]
    | ok pr => obtain ⟨v, s1⟩ := pr; simp [h1] at h
  | U64 =>
    simp only [readDatatype] at h
    cases h1 : takeU64 e s with
    | error g => simp only [h1] at h; cases h; have := takeU64_err e s f h1; simp [this]
    | ok pr => obtain ⟨v, s1⟩ := pr; simp [h1] at h
  | I8 =>
    simp only [readDatatype] at h
    cases h1 : takeBytes 1 s with
    | error g => simp only [h1] at h; cases h; have := takeBytes_err 1 s f h1; simp [this]
    | ok pr => obtain ⟨v, s1⟩ := pr; simp [h1] at h
  | I16 =>
    simp only [readDatatype] at h
    cases h1 : takeBytes 2 s with
    | error g => simp only [h1] at h; cases h; have := takeBytes_err 2 s f h1; simp [this]
    | ok pr => obtain ⟨v, s1⟩ := pr; simp [h1] at h
  | I32 =>
    simp only [readDatatype] at h
    cases h1 : takeU32 e s with
    | error g => simp only [h1] at h; cases h; have := takeU32_err e s f h1; simp [this]
    | ok pr => obtain ⟨v, s1⟩ := pr; simp [h1] at h
  | I64 =>
    simp only [readDatatype] at h
    cases h1 : takeU64 e s with
    | error g => simp only [h1] at h; cases h; have := takeU64_err e s f h1; simp [this]
    | ok pr => obtain ⟨v, s1⟩ := pr; simp [h1] at h
  | SingleFloat =>
    simp only [readDatatype] at h
    cases h1 : takeU32 e s with
    | error g => simp only [h1] at h; cases h; have := takeU32_err e s f h1; simp [this]
    | ok pr => obtain ⟨v, s1⟩ := pr; simp [h1] at h
  | DoubleFloat =>
    simp only [readDatatype] at h
    cases h1 : takeU64 e s with
    | error g => simp only [h1] at h; cases h; have := takeU64_err e s f h1; simp [this]
    | ok pr => obtain ⟨v, s1⟩ := pr; simp [h1] at h
  | Boolean =>
    simp only [readDatatype] at h
    cases h1 : takeBytes 1 s with
    | error g => simp only [h1] at h; cases h; have := takeBytes_err 1 s f h1; simp [this]
    | ok pr => obtain ⟨v, s1⟩ := pr; simp [h1] at h
  | TimeStamp =>
    simp only [readDatatype] at h
    cases h1 : takeU64 e s with
    | error g => simp only [h1] at h; cases h; have := takeU64_err e s f h1; simp [this]
    | ok pr =>
      obtain ⟨v, s1⟩ := pr
      simp only [h1] at h
      cases h2 : takeU64 e s1 with
      | error g => simp only [h2] at h; cases h; have := takeU64_err e s1 f h2; simp [this]
      | ok pr2 => obtain ⟨v2, s2⟩ := pr2; simp [h2] at h
  | DAQmxRawData =>
    simp only [readDatatype] at h
    cases h1 : takeU64 e s with
    | error g => simp only [h1] at h; cases h; have := takeU64_err e s f h1; simp [this]
    | ok pr => obtain ⟨v, s1⟩ := pr; simp [h1] at h
  | Void => simp only [readDatatype] at h; cases h; decide
  | ExtendedFloat => simp only [readDatatype] at h; cases h; decide
  | SingleFloatWithUnit => simp only [readDatatype] at h; cases h; decide
  | DoubleFloatWithUnit => simp only [readDatatype] at h; cases h; decide
  | ExtendedFloatWithUnit => simp only [readDatatype] at h; cases h; decide
  | FixedPoint => simp only [readDatatype] at h; cases h; decide
  | ComplexSingleFloat => simp only [readDatatype] at h; cases h; decide
  | ComplexDoubleFloat => simp only [readDatatype] at h; cases h; decide

/-- `DataTypeRaw::size` never fails with `NoPreviousObject`. -/
theorem size_err (t : DataTypeRaw) (f : Fail)
    (h : DataTypeRaw.size t = .error f) : f ≠ .err .noPreviousObject := by
  cases t <;> simp only [DataTypeRaw.size] at h <;> (cases h <;> decide)

/-- `read_property` never fails with `NoPreviousObject`. -/
theorem readProperty_err (e : Endian) (s : List Nat) (f : Fail)
    (h : readProperty e s = .error f) : f ≠ .err .noPreviousObject := by
  unfold readProperty at h
  cases h1 : readTdmsString e s with
  | error g => simp only [h1] at h; cases h; exact readTdmsString_err e s f h1
  | ok pr =>
    obtain ⟨name, s1⟩ := pr
    simp only [h1] at h
    cases h2 : takeU32 e s1 with
    | error g => simp only [h2] at h; cases h; have := takeU32_err e s1 f h2; simp [this]
    | ok pr2 =>
      obtain ⟨code, s2⟩ := pr2
      simp only [h2] at h
      cases h3 : DataTypeRaw.fromU32 code with
      | error g => simp only [h3] at h; cases h; exact fromU32_err code f h3
      | ok dt =>
        simp only [h3] at h
        cases h4 : readDatatype e dt s2 with
        | error g => simp only [h4] at h; cases h; exact readDatatype_err e dt s2 f h4
        | ok pr4 => obtain ⟨v, s3⟩ := pr4; simp [h4] at h

/-- The property loop never fails with `NoPreviousObject`. -/
theorem propsLoop_err (e : Endian) :
    ∀ (n : Nat) (ob ob' : TdmsObject) (s : List Nat) (f : Fail),
      propsLoop e n ob s = (ob', .error f) → f ≠ .err .noPreviousObject := by
  intro n
  induction n with
  | zero => intro ob ob' s f h; simp [propsLoop] at h
  | succ k ih =>
    intro ob ob' s f h
    simp only [propsLoop] at h
    cases h1 : readProperty e s with
    | error g =>
      simp only [h1] at h
      obtain ⟨-, h2⟩ := Prod.mk.injEq .. ▸ h
      cases h2
      exact readProperty_err e s f h1
    | ok pr =>
      obtain ⟨p, s1⟩ := pr
      simp only [h1] at h
      exact ih _ ob' s1 f h

/-- `update_properties` never fails with `NoPreviousObject`. -/
theorem updateProperties_err (e : Endian) (ob ob' : TdmsObject) (s : List Nat) (f : Fail)
    (h : updateProperties e ob s = (ob', .error f)) : f ≠ .err .noPreviousObject := by
  unfold updateProperties at h
  cases h1 : takeU32 e s with
  | error g =>
    simp only [h1] at h
    obtain ⟨-, h2⟩ := Prod.mk.injEq .. ▸ h
    cases h2
    have := takeU32_err e s f h1; simp [this]
  | ok pr =>
    obtain ⟨np, s1⟩ := pr
    simp only [h1] at h
    exact propsLoop_err e np _ ob' s1 f h

/-- The DAQmx scaler loop never fails with `NoPreviousObject`. -/
theorem scalersLoop_err (e : Endian) :
    ∀ (n : Nat) (acc : List DAQMxScaler) (s : List Nat) (f : Fail),
      scalersLoop e n acc s = .error f → f ≠ .err .noPreviousObject := by
  intro n
  induction n with
  | zero => intro acc s f h; simp [scalersLoop] at h
  | succ k ih =>
    intro acc s f h
    simp only [scalersLoop] at h
    cases h1 : takeU32 e s with
    | error g => simp only [h1] at h; cases h; have := takeU32_err e s f h1; simp [this]
    | ok pr =>
      obtain ⟨code, s1⟩ := pr
      simp only [h1] at h
      cases h2 : DataTypeRaw.fromU32 code with
      | error g => simp only [h2] at h; cases h; exact fromU32_err code f h2
      | ok dt =>
        simp only [h2] at h
        cases h3 : takeU32 e s1 with
        | error g => simp only [h3] at h; cases h; have := takeU32_err e s1 f h3; simp [this]
        | ok pr3 =>
          obtain ⟨v3, s3⟩ := pr3
          simp only [h3] at h
          cases h4 : takeU32 e s3 with
          | error g => simp only [h4] at h; cases h; have := takeU32_err e s3 f h4; simp [this]
          | ok pr4 =>
            obtain ⟨v4, s4⟩ := pr4
            simp only [h4] at h
            cases h5 : takeU32 e s4 with
            | error g => simp only [h5] at h; cases h; have := takeU32_err e s4 f h5; simp [this]
            | ok pr5 =>
              obtain ⟨v5, s5⟩ := pr5
              simp only [h5] at h
              cases h6 : takeU32 e s5 with
              | error g =>
                simp only [h6] at h; cases h; have := takeU32_err e s5 f h6; simp [this]
              | ok pr6 =>
                obtain ⟨v6, s6⟩ := pr6
                simp only [h6] at h
                exact ih _ s6 f h

/-- The DAQmx width-vector loop never fails with `NoPreviousObject`. -/
theorem widthvecLoop_err (e : Endian) :
    ∀ (n : Nat) (acc : List Nat) (s : List Nat) (f : Fail),
      widthvecLoop e n acc s = .error f → f ≠ .err .noPreviousObject := by
  intro n
  induction n with
  | zero => intro acc s f h; simp [widthvecLoop] at h
  | succ k ih =>
    intro acc s f h
    simp only [widthvecLoop] at h
    cases h1 : takeU32 e s with
    | error g => simp only [h1] at h; cases h; have := takeU32_err e s f h1; simp [this]
    | ok pr =>
      obtain ⟨w, s1⟩ := pr
      simp only [h1] at h
      exact ih _ s1 f h

/-- `read_daqmxinfo` never fails with `NoPreviousObject`. -/
theorem readDaqmxinfo_err (e : Endian) (ob : TdmsObject) (s : List Nat) (f : Fail)
    (h : readDaqmxinfo e ob s = .error f) : f ≠ .err .noPreviousObject := by
  unfold readDaqmxinfo at h
  cases h1 : takeU32 e s with
  | error g => simp only [h1] at h; cases h; have := takeU32_err e s f h1; simp [this]
  | ok pr =>
    obtain ⟨fmtSize, s1⟩ := pr
    simp only [h1] at h
    cases h2 : scalersLoop e fmtSize [] s1 with
    | error g => simp only [h2] at h; cases h; exact scalersLoop_err e fmtSize [] s1 f h2
    | ok pr2 =>
      obtain ⟨scalers, s2⟩ := pr2
      simp only [h2] at h
      cases h3 : takeU32 e s2 with
      | error g => simp only [h3] at h; cases h; have := takeU32_err e s2 f h3; simp [this]
      | ok pr3 =>
        obtain ⟨widthSize, s3⟩ := pr3
        simp only [h3] at h
        cases h4 : widthvecLoop e widthSize [] s3 with
        | error g => simp only [h4] at h; cases h; exact widthvecLoop_err e widthSize [] s3 f h4
        | ok pr4 => obtain ⟨widths, s4⟩ := pr4; simp [h4] at h

/-- `read_sizeinfo` never fails with `NoPreviousObject`. -/
theorem readSizeinfo_err (e : Endian) (ob : TdmsObject) (s : List Nat) (f : Fail)
    (h : readSizeinfo e ob s = .error f) : f ≠ .err .noPreviousObject := by
  unfold readSizeinfo at h
  cases h1 : takeU32 e s with
  | error g => simp only [h1] at h; cases h; have := takeU32_err e s f h1; simp [this]
  | ok pr =>
    obtain ⟨code, s1⟩ := pr
    simp only [h1] at h
    cases h2 : DataTypeRaw.fromU32 code with
    | error g => simp only [h2] at h; cases h; exact fromU32_err code f h2
    | ok rdt =>
      simp only [h2] at h
      cases h3 : takeU32 e s1 with
      | error g => simp only [h3] at h; cases h; have := takeU32_err e s1 f h3; simp [this]
      | ok pr3 =>
        obtain ⟨dim, s2⟩ := pr3
        simp only [h3] at h
        cases h4 : takeU64 e s2 with
        | error g => simp only [h4] at h; cases h; have := takeU64_err e s2 f h4; simp [this]
        | ok pr4 =>
          obtain ⟨noVals, s3⟩ := pr4
          simp only [h4] at h
          cases rdt with
          | TdmsString =>
            cases h5 : takeU64 e s3 with
            | error g =>
              simp only [h5] at h; cases h; have := takeU64_err e s3 f h5; simp [this]
            | ok pr5 => obtain ⟨nb, s4⟩ := pr5; simp [h5] at h
          | Void => simp [DataTypeRaw.size] at h
          | I8 => simp [DataTypeRaw.size] at h
          | I16 => simp [DataTypeRaw.size] at h
          | I32 => simp [DataTypeRaw.size] at h
          | I64 => simp [DataTypeRaw.size] at h
          | U8 => simp [DataTypeRaw.size] at h
          | U16 => simp [DataTypeRaw.size] at h
          | U32 => simp [DataTypeRaw.size] at h
          | U64 => simp [DataTypeRaw.size] at h
          | SingleFloat => simp [DataTypeRaw.size] at h
          | DoubleFloat => simp [DataTypeRaw.size] at h
          | ExtendedFloat => simp [DataTypeRaw.size] at h
          | SingleFloatWithUnit => simp [DataTypeRaw.size] at h
          | DoubleFloatWithUnit => simp [DataTypeRaw.size] at h
          | ExtendedFloatWithUnit => simp [DataTypeRaw.size] at h
          | Boolean => simp [DataTypeRaw.size] at h
          | TimeStamp => simp [DataTypeRaw.size] at h
          | FixedPoint => simp [DataTypeRaw.size] at h
          | ComplexSingleFloat => simp [DataTypeRaw.size] at h
          | ComplexDoubleFloat => simp [DataTypeRaw.size] at h
          | DAQmxRawData => simp [DataTypeRaw.size] at h

/-- C5 (amended): parsing an object record fails with `NoPreviousObject`
exactly when its discriminator is `0x0000_0000` and the path has never been
seen before (no entry in `all_objects`) — regardless of whether the prior
record carried a raw-data descriptor. -/
theorem c5_amended_no_previous_object_iff (m : TdmsMap) (path : TdmsPath)
    (e : Endian) (s : List Nat) :
    (updateReadObject m path e s).2 = .error (.err .noPreviousObject) ↔
      ((∃ s1, takeU32 e s = .ok (DATA_INDEX_MATCHES_PREVIOUS, s1)) ∧
        imapContains m.all_objects path = false) := by
  cases h1 : takeU32 e s with
  | error g =>
    constructor
    · intro hL
      exfalso
      simp only [updateReadObject, h1] at hL
      cases hL
      have h2 := takeU32_err e s _ h1
      simp at h2
    · rintro ⟨⟨s2, hs2⟩, -⟩
      cases hs2
  | ok pr =>
    obtain ⟨il, s1⟩ := pr
    have hRHS : (∃ s2, (Except.ok (il, s1) : Except Fail (Nat × List Nat)) =
          .ok (DATA_INDEX_MATCHES_PREVIOUS, s2)) ↔ il = DATA_INDEX_MATCHES_PREVIOUS := by
      constructor
      · rintro ⟨s2, hs2⟩
        cases hs2
        rfl
      · intro hil
        exact ⟨s1, by rw [hil]⟩
    rw [hRHS]
    simp only [updateReadObject, h1]
    by_cases hA : il = NO_RAW_DATA
    · have hil0 : ¬il = DATA_INDEX_MATCHES_PREVIOUS := by rw [hA]; decide
      rw [if_pos hA]
      constructor
      · intro hL
        exfalso
        split at hL
        · rename_i ob2 f' heq
          exact absurd (by simpa using hL) (updateProperties_err e _ ob2 s1 f' heq)
        · simp at hL
      · rintro ⟨hil, -⟩
        exact absurd hil hil0
    · rw [if_neg hA]
      by_cases hB : il = DATA_INDEX_MATCHES_PREVIOUS
      · rw [if_pos hB]
        by_cases hC : imapContains m.all_objects path = true
        · simp only [hC, Bool.not_true]
          constructor
          · intro hL
            exfalso
            simp only [Bool.false_eq_true, if_false] at hL
            split at hL
            · rename_i ob2 f' heq
              exact absurd (by simpa using hL) (updateProperties_err e _ ob2 s1 f' heq)
            · simp at hL
          · rintro ⟨-, hcon⟩
            cases hcon
        · have hC' : imapContains m.all_objects path = false := by
            revert hC; cases imapContains m.all_objects path <;> simp
          simp only [hC', Bool.not_false, if_true]
          constructor
          · intro _
            exact ⟨hB, trivial⟩
          · intro _
            trivial
      · rw [if_neg hB]
        by_cases hD : il = FORMAT_CHANGING_SCALER
        · rw [if_pos hD]
          constructor
          · intro hL
            exfalso
            split at hL
            · rename_i f' heq
              exact absurd (by simpa using hL) (readSizeinfo_err e _ s1 f' heq)
            · rename_i ob2 s2 heq
              split at hL
              · rename_i f' heq2
                exact absurd (by simpa using hL) (readDaqmxinfo_err e ob2 s2 f' heq2)
              · rename_i ob3 s3 heq2
                split at hL
                · rename_i ob4 f' heq3
                  exact absurd (by simpa using hL) (updateProperties_err e ob3 ob4 s3 f' heq3)
                · simp at hL
          · rintro ⟨hil, -⟩
            exact absurd hil hB
        · rw [if_neg hD]
          by_cases hE : il = DIGITAL_LINE_SCALER
          · rw [if_pos hE]
            constructor
            · intro hL
              exfalso
              split at hL
              · rename_i f' heq
                exact absurd (by simpa using hL) (readSizeinfo_err e _ s1 f' heq)
              · rename_i ob2 s2 heq
                split at hL
                · rename_i f' heq2
                  exact absurd (by simpa using hL) (readDaqmxinfo_err e ob2 s2 f' heq2)
                · rename_i ob3 s3 heq2
                  split at hL
                  · rename_i ob4 f' heq3
                    exact absurd (by simpa using hL) (updateProperties_err e ob3 ob4 s3 f' heq3)
                  · simp at hL
            · rintro ⟨hil, -⟩
              exact absurd hil hB
          · rw [if_neg hE]
            constructor
            · intro hL
              exfalso
              split at hL
              · rename_i f' heq
                exact absurd (by simpa using hL) (readSizeinfo_err e _ s1 f' heq)
              · rename_i ob2 s2 heq
                split at hL
                · rename_i ob3 f' heq2
                  exact absurd (by simpa using hL) (updateProperties_err e ob2 ob3 s2 f' heq2)
                · simp at hL
            · rintro ⟨hil, -⟩
              exact absurd hil hB

/-! ## C3: the live-object list -/

/-- Append a path to the live list when not already present (the push rule
the object loop applies to every declared object). -/
def pushIfAbsent (l : List TdmsPath) (p : TdmsPath) : List TdmsPath :=
  if l.contains p then l else l ++ [p]

/-- `update_read_object` never touches `live_objects`. -/
theorem updateReadObject_live (m : TdmsMap) (path : TdmsPath) (e : Endian) (s : List Nat) :
    (updateReadObject m path e s).1.live_objects = m.live_objects := by
  simp only [updateReadObject, commitObject]
  repeat' split
  all_goals rfl

/-- The object loop leaves `live_objects` an append-if-absent fold of the
parsed paths over the incoming list. -/
theorem objLoop_live_fold (e : Endian) :
    ∀ (n : Nat) (m : TdmsMap) (chunk channels : Nat) (s : List Nat),
      ∃ ps : List TdmsPath,
        (objLoop e n m chunk channels s).1.live_objects =
          ps.foldl pushIfAbsent m.live_objects := by
  intro n
  induction n with
  | zero =>
    intro m chunk channels s
    exact ⟨[], by simp [objLoop]⟩
  | succ k ih =>
    intro m chunk channels s
    cases hpath : readTdmsString e s with
    | error f => exact ⟨[], by simp [objLoop, hpath]⟩
    | ok pr =>
      obtain ⟨path, s1⟩ := pr
      simp only [objLoop, hpath]
      split
      · rename_i m1 f heq
        refine ⟨[], ?_⟩
        have hu := updateReadObject_live m path e s1
        rw [heq] at hu
        simpa using hu
      · rename_i m1 nb rdt s2 heq
        have hl : m1.live_objects = m.live_objects := by
          have hu := updateReadObject_live m path e s1
          rw [heq] at hu
          exact hu
        split
        · rename_i f heq2
          exact ⟨[], by simpa using hl⟩
        · rename_i channels' heq2
          by_cases hc : m1.live_objects.contains path = true
          · rw [if_pos hc]
            obtain ⟨ps, hps⟩ := ih m1 (wadd chunk nb) channels' s2
            refine ⟨path :: ps, ?_⟩
            rw [hps, List.foldl_cons, hl]
            have hpush : pushIfAbsent m.live_objects path = m.live_objects := by
              unfold pushIfAbsent
              rw [if_pos (hl ▸ hc)]
            rw [hpush]
          · rw [if_neg hc]
            obtain ⟨ps, hps⟩ :=
              ih { m1 with live_objects := m1.live_objects ++ [path] }
                (wadd chunk nb) channels' s2
            refine ⟨path :: ps, ?_⟩
            rw [hps, List.foldl_cons]
            have hpush : pushIfAbsent m.live_objects path = m1.live_objects ++ [path] := by
              unfold pushIfAbsent
              rw [if_neg (hl ▸ hc), hl]
            rw [hpush]

/-- The chunk-emission loop leaves `live_objects` unchanged (it only touches
one object's map). -/
theorem uiLoop_live (seg : TdmsSegment) (chunk channels : Nat) :
    ∀ (l : List TdmsPath) (relPos : Nat) (m : TdmsMap),
      (uiLoop seg chunk channels l relPos m).1.live_objects = m.live_objects := by
  intro l
  induction l with
  | nil => intro relPos m; simp [uiLoop]
  | cons key rest ih =>
    intro relPos m
    simp only [uiLoop]
    split
    · rfl
    · rename_i om heq
      split
      · rfl
      · rename_i typeSize heq2
        split
        · rfl
        · rename_i om1 heq3
          rw [ih]

/-- `update_indexes` leaves `live_objects` unchanged. -/
theorem updateIndexes_live (m : TdmsMap) (seg : TdmsSegment) (chunk channels : Nat) :
    (updateIndexes m seg chunk channels).1.live_objects = m.live_objects := by
  unfold updateIndexes
  exact uiLoop_live seg chunk channels m.live_objects 0 m

/-- C3 (amended): (1) each successfully parsed object record appends its path
to `live_objects` precisely when the path is not already present — regardless
of the record's discriminator and of whether it contributes raw bytes; (2)
after a successfully parsed segment, `live_objects` is the append-if-absent
fold of the parsed paths over the previous list when the new-object-list bit
is absent, and over the empty list (the list is cleared first) when it is
set. -/
theorem c3_amended_live_objects :
    (∀ (e : Endian) (m : TdmsMap) (chunk channels : Nat) (s : List Nat)
       (path : TdmsPath) (s1 : List Nat),
       readTdmsString e s = .ok (path, s1) →
       ∀ res, objLoop e 1 m chunk channels s = res →
         (∃ v, res.2 = .ok v) →
         res.1.live_objects = pushIfAbsent m.live_objects path) ∧
    (∀ (m : TdmsMap) (e : Endian) (seg : TdmsSegment) (s : List Nat)
       (m' : TdmsMap) (sg : TdmsSegment),
       readSegmentMetadata m e seg s = (m', .ok sg) →
       ∃ ps : List TdmsPath,
         m'.live_objects = ps.foldl pushIfAbsent
           (if hasFlag seg.toc_mask kTocNewObjList then [] else m.live_objects)) := by
  constructor
  · intro e m chunk channels s path s1 hpath res hres hok
    subst hres
    simp only [objLoop, hpath]
    split
    · rename_i m1 f heq
      obtain ⟨v, hv⟩ := hok
      simp only [objLoop, hpath, heq] at hv
      cases hv
    · rename_i m1 nb rdt s2 heq
      have hl : m1.live_objects = m.live_objects := by
        have hu := updateReadObject_live m path e s1
        rw [heq] at hu
        exact hu
      split
      · rename_i f heq2
        obtain ⟨v, hv⟩ := hok
        simp only [objLoop, hpath, heq, heq2] at hv
        cases hv
      · rename_i channels' heq2
        simp only [objLoop]
        by_cases hc : m1.live_objects.contains path = true
        · rw [if_pos hc]
          have hpush : pushIfAbsent m.live_objects path = m.live_objects := by
            unfold pushIfAbsent
            rw [if_pos (hl ▸ hc)]
          rw [hpush, ← hl]
        · rw [if_neg hc]
          have hpush : pushIfAbsent m.live_objects path = m1.live_objects ++ [path] := by
            unfold pushIfAbsent
            rw [if_neg (hl ▸ hc), hl]
          rw [hpush]
  · intro m e seg s m' sg hok
    unfold readSegmentMetadata at hok
    split at hok
    · cases hok
    · rename_i version s1 heq1
      split at hok
      · cases hok
      · rename_i next s2 heq2
        split at hok
        · cases hok
        · rename_i rawOff s3 heq3
          split at hok
          · cases hok
          · rename_i noObjects s4 heq4
            by_cases hflag : hasFlag seg.toc_mask kTocNewObjList = true
            · simp only [hflag, Bool.not_true, Bool.false_eq_true, if_false] at hok
              split at hok
              · cases hok
              · rename_i m2 chunk channels s5 heqo
                split at hok
                · cases hok
                · rename_i m3 uu hequ
                  obtain ⟨hm3, -⟩ := Prod.mk.injEq .. ▸ hok
                  have hui : m3.live_objects = m2.live_objects := by
                    have hx := updateIndexes_live m2
                      { seg with version_no := version, next_seg_offset := next,
                                 raw_data_offset := rawOff,
                                 no_chunks := if chunk > 0 then wsub next rawOff / chunk
                                              else 0 }
                      chunk channels
                    rw [hequ] at hx
                    exact hx
                  obtain ⟨ps, hps⟩ := objLoop_live_fold e noObjects
                    { m with live_objects := [] } 0 0 s4
                  rw [heqo] at hps
                  have hps' : m2.live_objects = ps.foldl pushIfAbsent [] := hps
                  refine ⟨ps, ?_⟩
                  rw [if_pos hflag, ← hm3, hui, hps']
            · have hflag' : hasFlag seg.toc_mask kTocNewObjList = false := by
                revert hflag; cases hasFlag seg.toc_mask kTocNewObjList <;> simp
              simp only [hflag', Bool.not_false, if_true] at hok
              split at hok
              · rename_i m1 f heqp
                cases hok
              · rename_i m1 chunk0 channels0 heqp
                have hm1 : m1.live_objects = m.live_objects := by
                  split at heqp
                  · obtain ⟨-, h2⟩ := Prod.mk.injEq .. ▸ heqp
                    cases h2
                  · obtain ⟨h1, -⟩ := Prod.mk.injEq .. ▸ heqp
                    rw [← h1]
                split at hok
                · cases hok
                · rename_i m2 chunk channels s5 heqo
                  split at hok
                  · cases hok
                  · rename_i m3 uu hequ
                    obtain ⟨hm3, -⟩ := Prod.mk.injEq .. ▸ hok
                    have hui : m3.live_objects = m2.live_objects := by
                      have hx := updateIndexes_live m2
                        { seg with version_no := version, next_seg_offset := next,
                                   raw_data_offset := rawOff,
                                   no_chunks := if chunk > 0 then wsub next rawOff / chunk
                                                else 0 }
                        chunk channels
                      rw [hequ] at hx
                      exact hx
                    obtain ⟨ps, hps⟩ := objLoop_live_fold e noObjects m1 chunk0 channels0 s4
                    rw [heqo] at hps
                    have hps' : m2.live_objects =
                        ps.foldl pushIfAbsent m1.live_objects := hps
                    refine ⟨ps, ?_⟩
                    rw [if_neg (by simp [hflag']), ← hm3, hui, hps', hm1]

/-- One object record (path `"x"`, no-raw-data discriminator, no properties)
for the C3 witness. -/
def c3wStream : List Nat := u32le 1 ++ [120] ++ u32le 0xFFFFFFFF ++ u32le 0

/-- C3, witness: running the object loop on one concrete no-raw-data record
appends its path to the live list. -/
theorem c3_witness :
    (objLoop .le 1 TdmsMap.new 0 0 c3wStream).1.live_objects =
      pushIfAbsent TdmsMap.new.live_objects [120] :=
  c3_amended_live_objects.1 .le TdmsMap.new 0 0 c3wStream [120]
    (u32le 0xFFFFFFFF ++ u32le 0) (by rfl) _ rfl ⟨(0, 0, []), by rfl⟩

/-! ## C4: preservation of read plans across a failing segment read -/

/-- The load-relevant part of an `ObjectMap`: read plan, value and byte
totals, endianness flag. -/
def planView (om : ObjectMap) : List ReadPair × Nat × Nat × Bool :=
  (om.read_map, om.total_values, om.total_bytes, om.bigendian)

/-- Every object either keeps its load-relevant data unchanged or is a fresh
entry with an empty plan. -/
def planPreserved (m m' : TdmsMap) : Prop :=
  ∀ p, (imapFind m'.all_objects p).map planView = (imapFind m.all_objects p).map planView ∨
    (imapFind m.all_objects p = none ∧
      (imapFind m'.all_objects p).map planView = some ([], 0, 0, false))

/-- `planPreserved` is reflexive. -/
theorem planPreserved_refl (m : TdmsMap) : planPreserved m m := fun _ => Or.inl rfl

/-- Maps with the same `all_objects` are plan-preserving. -/
theorem planPreserved_of_eq (m m' : TdmsMap) (h : m'.all_objects = m.all_objects) :
    planPreserved m m' := fun p => Or.inl (by rw [h])

/-- `planPreserved` is transitive. -/
theorem planPreserved_trans (m1 m2 m3 : TdmsMap)
    (h12 : planPreserved m1 m2) (h23 : planPreserved m2 m3) : planPreserved m1 m3 := by
  intro p
  rcases h23 p with h | ⟨hn2, hd⟩
  · rcases h12 p with h' | ⟨hn1, hd'⟩
    · exact Or.inl (h.trans h')
    · exact Or.inr ⟨hn1, h.trans hd'⟩
  · rcases h12 p with h' | ⟨hn1, hd'⟩
    · rw [hn2] at h'
      have hn1 : imapFind m1.all_objects p = none := by
        cases hfind : imapFind m1.all_objects p with
        | none => rfl
        | some v => rw [hfind] at h'; simp at h'
      exact Or.inr ⟨hn1, hd⟩
    · exact Or.inr ⟨hn1, hd⟩

/-- Lookup after an in-place value update. -/
theorem imapFind_update {α : Type} (m : List (TdmsPath × α)) (k : TdmsPath) (f : α → α)
    (p : TdmsPath) :
    imapFind (imapUpdate m k f) p =
      if p = k then (imapFind m p).map f else imapFind m p := by
  induction m with
  | nil => by_cases h : p = k <;> simp [imapUpdate, imapFind, h]
  | cons hd tl ih =>
    obtain ⟨k', v⟩ := hd
    by_cases h1 : k' = k
    · subst h1
      by_cases h2 : k' = p
      · subst h2
        simp [imapUpdate, imapFind]
      · have h3 : ¬p = k' := fun hh => h2 hh.symm
        simp [imapUpdate, imapFind, h2, h3]
    · by_cases h2 : k' = p
      · subst h2
        have h3 : ¬k' = k := h1
        simp [imapUpdate, imapFind, h3]
      · simp only [imapUpdate, if_neg h1, imapFind, if_neg h2, ih]

/-- Lookup in a map extended at the end with one binding. -/
theorem imapFind_append {α : Type} (m : List (TdmsPath × α)) (k : TdmsPath) (d : α)
    (p : TdmsPath) :
    imapFind (m ++ [(k, d)]) p =
      match imapFind m p with
      | some v => some v
      | none => if k = p then some d else none := by
  induction m with
  | nil => simp [imapFind]
  | cons hd tl ih =>
    obtain ⟨k', v⟩ := hd
    by_cases h : k' = p
    · simp [imapFind, h]
    · simp only [List.cons_append, imapFind, if_neg h]
      exact ih

/-- `commitObject` keeps every object's load-relevant data. -/
theorem commitObject_planView (m : TdmsMap) (path : TdmsPath) (ob : TdmsObject)
    (p : TdmsPath) :
    (imapFind (commitObject m path ob).all_objects p).map planView =
      (imapFind m.all_objects p).map planView := by
  unfold commitObject
  simp only [imapFind_update]
  by_cases h : p = path
  · rw [if_pos h]
    cases imapFind m.all_objects p <;> simp [planView]
  · rw [if_neg h]

/-- Creating a default entry is plan-preserving. -/
theorem entryOrDefault_plan (m : TdmsMap) (path : TdmsPath) :
    planPreserved m { m with all_objects := imapEntryOrDefault m.all_objects path } := by
  intro p
  simp only [imapEntryOrDefault]
  by_cases hc : imapContains m.all_objects path
  · rw [if_pos hc]
    exact Or.inl rfl
  · rw [if_neg hc]
    rw [imapFind_append]
    cases hfind : imapFind m.all_objects p with
    | some v => exact Or.inl rfl
    | none =>
      by_cases hp : path = p
      · rw [if_pos hp]
        exact Or.inr ⟨rfl, rfl⟩
      · rw [if_neg hp]
        exact Or.inl rfl

/-- `update_read_object` is plan-preserving: it creates at most a fresh
default entry and only rewrites `last_object` fields. -/
theorem updateReadObject_plan (m : TdmsMap) (path : TdmsPath) (e : Endian)
    (s : List Nat) : planPreserved m (updateReadObject m path e s).1 := by
  have key : ∀ ob, planPreserved m
      (commitObject { m with all_objects := imapEntryOrDefault m.all_objects path } path ob) := by
    intro ob
    refine planPreserved_trans m _ _ (entryOrDefault_plan m path) ?_
    intro p
    exact Or.inl (commitObject_planView _ path ob p)
  simp only [updateReadObject]
  repeat' split
  all_goals exact key _

/-- The object loop is plan-preserving. -/
theorem objLoop_plan (e : Endian) :
    ∀ (n : Nat) (m : TdmsMap) (chunk channels : Nat) (s : List Nat),
      planPreserved m (objLoop e n m chunk channels s).1 := by
  intro n
  induction n with
  | zero => intro m chunk channels s; simp only [objLoop]; exact planPreserved_refl m
  | succ k ih =>
    intro m chunk channels s
    simp only [objLoop]
    split
    · exact planPreserved_refl m
    · rename_i path s1 hpath
      split
      · rename_i m1 f heq
        have h1 := updateReadObject_plan m path e s1
        rw [heq] at h1
        exact h1
      · rename_i m1 nb rdt s2 heq
        have h1 := updateReadObject_plan m path e s1
        rw [heq] at h1
        split
        · exact h1
        · rename_i channels' heq2
          split
          · exact planPreserved_trans m m1 _ h1 (ih m1 (wadd chunk nb) channels' s2)
          · refine planPreserved_trans m _ _ h1 ?_
            refine planPreserved_trans m1 _ _ (planPreserved_of_eq _ _ rfl) ?_
            exact ih _ (wadd chunk nb) channels' s2

/-- `DataTypeRaw::size` only fails on the string type. -/
theorem size_err2 (t : DataTypeRaw) (f : Fail)
    (h : DataTypeRaw.size t = .error f) : f = .err .stringSizeNotDefined := by
  cases t <;> simp only [DataTypeRaw.size] at h <;> first | (cases h; rfl) | cases h

/-- The chunk-emission loop only fails with a panic. -/
theorem pairsLoop_err2 (seg : TdmsSegment) (chunk relPos strideVal : Nat) :
    ∀ (k i : Nat) (om : ObjectMap) (f : Fail),
      pairsLoop seg chunk relPos strideVal i k om = .error f → f = .crash := by
  intro k
  induction k with
  | zero => intro i om f h; simp [pairsLoop] at h
  | succ kk ih =>
    intro i om f h
    simp only [pairsLoop] at h
    split at h
    · cases h; rfl
    · exact ih (i + 1) _ f h

/-- The live-object walk of `update_indexes` never fails with unexpected
EOF. -/
theorem uiLoop_neverEof (seg : TdmsSegment) (chunk channels : Nat) :
    ∀ (l : List TdmsPath) (relPos : Nat) (m m' : TdmsMap) (f : Fail),
      uiLoop seg chunk channels l relPos m = (m', .error f) →
      f ≠ .err .ioUnexpectedEof := by
  intro l
  induction l with
  | nil => intro relPos m m' f h; simp [uiLoop] at h
  | cons key rest ih =>
    intro relPos m m' f h
    simp only [uiLoop] at h
    split at h
    · obtain ⟨-, h2⟩ := Prod.mk.injEq .. ▸ h
      cases h2
      decide
    · rename_i om heq
      split at h
      · rename_i f' heq2
        obtain ⟨-, h2⟩ := Prod.mk.injEq .. ▸ h
        cases h2
        -- the type-size computation only fails through `size`
        have : f = .err .stringSizeNotDefined := by
          split at heq2
          · cases heq2
          · cases heq2
          · exact size_err2 _ f heq2
        rw [this]
        decide
      · rename_i typeSize heq2
        split at h
        · rename_i f' heq3
          obtain ⟨-, h2⟩ := Prod.mk.injEq .. ▸ h
          cases h2
          split at heq3
          · have := pairsLoop_err2 seg chunk relPos (wsub channels typeSize)
              seg.no_chunks 0 om f heq3
            rw [this]
            decide
          · cases heq3
        · rename_i om1 heq3
          exact ih _ _ m' f h

/-- A segment-metadata parse that fails with unexpected EOF has only
created-or-amended object records: every read plan survives untouched. -/
theorem readSegmentMetadata_eofPlan (m : TdmsMap) (e : Endian) (seg : TdmsSegment)
    (s : List Nat) (m1 : TdmsMap)
    (h : readSegmentMetadata m e seg s = (m1, .error (.err .ioUnexpectedEof))) :
    planPreserved m m1 := by
  unfold readSegmentMetadata at h
  split at h
  · obtain ⟨h1, -⟩ := Prod.mk.injEq .. ▸ h
    rw [← h1]
    exact planPreserved_refl m
  · rename_i version s1 heq1
    split at h
    · obtain ⟨h1, -⟩ := Prod.mk.injEq .. ▸ h
      rw [← h1]
      exact planPreserved_refl m
    · rename_i next s2 heq2
      split at h
      · obtain ⟨h1, -⟩ := Prod.mk.injEq .. ▸ h
        rw [← h1]
        exact planPreserved_refl m
      · rename_i rawOff s3 heq3
        split at h
        · obtain ⟨h1, -⟩ := Prod.mk.injEq .. ▸ h
          rw [← h1]
          exact planPreserved_refl m
        · rename_i noObjects s4 heq4
          by_cases hflag : hasFlag seg.toc_mask kTocNewObjList = true
          · simp only [hflag, Bool.not_true, Bool.false_eq_true, if_false] at h
            split at h
            · rename_i m2 f heqo
              obtain ⟨h1, h2⟩ := Prod.mk.injEq .. ▸ h
              cases h2
              rw [← h1]
              have hp := objLoop_plan e noObjects { m with live_objects := [] } 0 0 s4
              rw [heqo] at hp
              exact planPreserved_trans m _ _ (planPreserved_of_eq _ _ rfl) hp
            · rename_i m2 chunk channels s5 heqo
              split at h
              · rename_i m3 f heqa
                obtain ⟨-, h2⟩ := Prod.mk.injEq .. ▸ h
                cases h2
                exact absurd rfl (uiLoop_neverEof _ chunk channels m2.live_objects 0 m2 m3 _ heqa)
              · rename_i m3 uu heqa
                obtain ⟨-, h2⟩ := Prod.mk.injEq .. ▸ h
                cases h2
          · have hflag' : hasFlag seg.toc_mask kTocNewObjList = false := by
              revert hflag; cases hasFlag seg.toc_mask kTocNewObjList <;> simp
            simp only [hflag', Bool.not_false, if_true] at h
            split at h
            · rename_i mc f heqp
              split at heqp
              · obtain ⟨-, h2⟩ := Prod.mk.injEq .. ▸ heqp
                obtain ⟨-, h4⟩ := Prod.mk.injEq .. ▸ h
                cases h2
                cases h4
              · obtain ⟨-, h2⟩ := Prod.mk.injEq .. ▸ heqp
                cases h2
            · rename_i mc chunk0 channels0 heqp
              have hmc : mc = m := by
                split at heqp
                · obtain ⟨-, h2⟩ := Prod.mk.injEq .. ▸ heqp
                  cases h2
                · obtain ⟨h1, -⟩ := Prod.mk.injEq .. ▸ heqp
                  rw [← h1]
              split at h
              · rename_i m2 f heqo
                obtain ⟨h1, h2⟩ := Prod.mk.injEq .. ▸ h
                cases h2
                rw [← h1]
                have hp := objLoop_plan e noObjects mc chunk0 channels0 s4
                rw [heqo] at hp
                rw [hmc] at hp
                exact hp
              · rename_i m2 chunk channels s5 heqo
                split at h
                · rename_i m3 f heqa
                  obtain ⟨-, h2⟩ := Prod.mk.injEq .. ▸ h
                  cases h2
                  exact absurd rfl
                    (uiLoop_neverEof _ chunk channels m2.live_objects 0 m2 m3 _ heqa)
                · rename_i m3 uu heqa
                  obtain ⟨-, h2⟩ := Prod.mk.injEq .. ▸ h
                  cases h2

/-- A segment read that fails with unexpected EOF leaves every read plan
untouched. -/
theorem readSegment_eofPlan (m : TdmsMap) (data : List Nat) (start : Nat) (m1 : TdmsMap)
    (h : readSegment m data start = (m1, .error (.err .ioUnexpectedEof))) :
    planPreserved m m1 := by
  simp only [readSegment] at h
  split at h
  · obtain ⟨h1, -⟩ := Prod.mk.injEq .. ▸ h
    rw [← h1]
    exact planPreserved_refl m
  · rename_i tag s1 heq1
    split at h
    · obtain ⟨h1, -⟩ := Prod.mk.injEq .. ▸ h
      rw [← h1]
      exact planPreserved_refl m
    · rename_i flags s2 heq2
      exact readSegmentMetadata_eofPlan m _ _ s2 m1 h

/-- C4 (amended): when reading the segment at `addr` hits an unexpected EOF
(a truncated header or metadata table), the walk stops cleanly and `open`
returns the index built so far — including any object records the corrupted
segment had already created or amended — and every object's read plan, value
and byte totals, and endianness flag survive unchanged (fresh entries from
the corrupted segment carry an empty plan); in particular the corrupted
segment contributes no read-plan entries, but it *does* contribute the
records parsed before the EOF. -/
theorem c4_amended_clean_stop (data : List Nat) (flen fuel addr : Nat) (m m1 : TdmsMap)
    (hlt : addr < flen)
    (heof : readSegment m data addr = (m1, .error (.err .ioUnexpectedEof))) :
    mapSegments data flen (fuel + 1) m addr = (m1, .ok ()) ∧ planPreserved m m1 := by
  constructor
  · simp only [mapSegments, if_pos hlt, heof]
  · exact readSegment_eofPlan m data addr m1 heof

/-- C4, witness: a one-byte file EOFs inside the first header read; the walk
returns cleanly with the empty index. -/
theorem c4_witness :
    (0 : Nat) < 1 ∧
    readSegment TdmsMap.new [0] 0 = (TdmsMap.new, .error (.err .ioUnexpectedEof)) ∧
    mapSegments [0] 1 1 TdmsMap.new 0 = (TdmsMap.new, .ok ()) :=
  ⟨Nat.zero_lt_one, by rfl,
   (c4_amended_clean_stop [0] 1 0 0 TdmsMap.new TdmsMap.new Nat.zero_lt_one (by rfl)).1⟩

/-! ## C10: the file tag is stored but never validated -/

/-- Replace the four bytes at `start` (a segment's file-tag field). -/
def overwrite4 (data : List Nat) (start : Nat) (a b c d : Nat) : List Nat :=
  data.take start ++ [a, b, c, d] ++ data.drop (start + 4)

/-- The chunk-emission loop depends on a segment record only through the
fields it reads — not the file tag. -/
theorem pairsLoop_fields (a b : TdmsSegment) (htoc : a.toc_mask = b.toc_mask)
    (hstart : a.start_index = b.start_index) (hraw : a.raw_data_offset = b.raw_data_offset)
    (chunk relPos strideVal : Nat) :
    ∀ (k i : Nat) (om : ObjectMap),
      pairsLoop a chunk relPos strideVal i k om =
        pairsLoop b chunk relPos strideVal i k om := by
  intro k
  induction k with
  | zero => intro i om; rfl
  | succ kk ih =>
    intro i om
    cases hnv : om.last_object.no_raw_vals with
    | none => simp only [pairsLoop, hnv]
    | some vals =>
      simp only [pairsLoop, hnv, htoc, hstart, hraw]
      exact ih (i + 1) _

/-- The live-object walk depends on a segment record only through the fields
it reads — not the file tag. -/
theorem uiLoop_fields (a b : TdmsSegment) (htoc : a.toc_mask = b.toc_mask)
    (hstart : a.start_index = b.start_index) (hraw : a.raw_data_offset = b.raw_data_offset)
    (hnoch : a.no_chunks = b.no_chunks) (chunk channels : Nat) :
    ∀ (l : List TdmsPath) (relPos : Nat) (m : TdmsMap),
      uiLoop a chunk channels l relPos m = uiLoop b chunk channels l relPos m := by
  intro l
  induction l with
  | nil => intro relPos m; rfl
  | cons key rest ih =>
    intro relPos m
    simp only [uiLoop, htoc, hstart, hraw, hnoch,
      pairsLoop_fields a b htoc hstart hraw, ih]

/-- `update_indexes` ignores the segment's file tag. -/
theorem updateIndexes_fields (a b : TdmsSegment) (htoc : a.toc_mask = b.toc_mask)
    (hstart : a.start_index = b.start_index) (hraw : a.raw_data_offset = b.raw_data_offset)
    (hnoch : a.no_chunks = b.no_chunks) (m : TdmsMap) (chunk channels : Nat) :
    updateIndexes m a chunk channels = updateIndexes m b chunk channels := by
  unfold updateIndexes
  exact uiLoop_fields a b htoc hstart hraw hnoch chunk channels m.live_objects 0 m

/-- Segment-metadata parsing uses the already-stored file tag only by
carrying it into the returned record. -/
theorem readSegmentMetadata_tag (m : TdmsMap) (e : Endian) (t1 t2 toc start : Nat)
    (s : List Nat) :
    readSegmentMetadata m e { TdmsSegment.new start with file_tag := t1, toc_mask := toc } s =
      (match readSegmentMetadata m e
          { TdmsSegment.new start with file_tag := t2, toc_mask := toc } s with
       | (m', .ok sg) => (m', .ok { sg with file_tag := t1 })
       | (m', .error f) => (m', .error f)) := by
  simp only [readSegmentMetadata, TdmsSegment.new]
  cases h1 : takeU32 e s with
  | error f => simp only [h1]
  | ok pr1 =>
    obtain ⟨version, s1⟩ := pr1
    simp only [h1]
    cases h2 : takeU64 e s1 with
    | error f => simp only [h2]
    | ok pr2 =>
      obtain ⟨next, s2⟩ := pr2
      simp only [h2]
      cases h3 : takeU64 e s2 with
      | error f => simp only [h3]
      | ok pr3 =>
        obtain ⟨rawOff, s3⟩ := pr3
        simp only [h3]
        cases h4 : takeU32 e s3 with
        | error f => simp only [h4]
        | ok pr4 =>
          obtain ⟨noObjects, s4⟩ := pr4
          simp only [h4]
          by_cases hflag : hasFlag toc kTocNewObjList = true
          · simp only [hflag, Bool.not_true, Bool.false_eq_true, if_false]
            cases ho : objLoop e noObjects { m with live_objects := [] } 0 0 s4 with
            | mk m2 r =>
              cases r with
              | error f => simp only [ho]
              | ok trip =>
                obtain ⟨chunk, channels, s5⟩ := trip
                simp only [ho]
                rw [updateIndexes_fields
                  { file_tag := t1, toc_mask := toc, version_no := version,
                    next_seg_offset := next, raw_data_offset := rawOff,
                    start_index := start,
                    no_chunks := if chunk > 0 then wsub next rawOff / chunk else 0,
                    chunk_size := 0, channels_size := 0 }
                  { file_tag := t2, toc_mask := toc, version_no := version,
                    next_seg_offset := next, raw_data_offset := rawOff,
                    start_index := start,
                    no_chunks := if chunk > 0 then wsub next rawOff / chunk else 0,
                    chunk_size := 0, channels_size := 0 }
                  rfl rfl rfl rfl m2 chunk channels]
                cases hu : updateIndexes m2
                    { file_tag := t2, toc_mask := toc, version_no := version,
                      next_seg_offset := next, raw_data_offset := rawOff,
                      start_index := start,
                      no_chunks := if chunk > 0 then wsub next rawOff / chunk else 0,
                      chunk_size := 0, channels_size := 0 } chunk channels with
                | mk m3 r2 =>
                  cases r2 with
                  | error f => simp only [hu]
                  | ok uu => simp only [hu]
          · have hflag' : hasFlag toc kTocNewObjList = false := by
              revert hflag; cases hasFlag toc kTocNewObjList <;> simp
            simp only [hflag', Bool.not_false, if_true]
            cases hg : m.segments.getLast? with
            | none => simp only [hg]
            | some prev =>
              simp only [hg]
              cases ho : objLoop e noObjects m prev.chunk_size prev.chunk_size s4 with
              | mk m2 r =>
                cases r with
                | error f => simp only [ho]
                | ok trip =>
                  obtain ⟨chunk, channels, s5⟩ := trip
                  simp only [ho]
                  rw [updateIndexes_fields
                    { file_tag := t1, toc_mask := toc, version_no := version,
                      next_seg_offset := next, raw_data_offset := rawOff,
                      start_index := start,
                      no_chunks := if chunk > 0 then wsub next rawOff / chunk else 0,
                      chunk_size := 0, channels_size := 0 }
                    { file_tag := t2, toc_mask := toc, version_no := version,
                      next_seg_offset := next, raw_data_offset := rawOff,
                      start_index := start,
                      no_chunks := if chunk > 0 then wsub next rawOff / chunk else 0,
                      chunk_size := 0, channels_size := 0 }
                    rfl rfl rfl rfl m2 chunk channels]
                  cases hu : updateIndexes m2
                      { file_tag := t2, toc_mask := toc, version_no := version,
                        next_seg_offset := next, raw_data_offset := rawOff,
                        start_index := start,
                        no_chunks := if chunk > 0 then wsub next rawOff / chunk else 0,
                        chunk_size := 0, channels_size := 0 } chunk channels with
                  | mk m3 r2 =>
                    cases r2 with
                    | error f => simp only [hu]
                    | ok uu => simp only [hu]

/-- C10: `read_segment` never validates the 4-byte file tag.  Overwriting the
four tag bytes of a segment with arbitrary values yields exactly the same
parse — same index mutations, same success or failure — except that the
stored `file_tag` field holds the new value; in particular no error is ever
raised for a wrong tag. -/
theorem c10_file_tag_never_validated (m : TdmsMap) (data : List Nat)
    (start a b c d : Nat) (h : start + 4 ≤ data.length) :
    readSegment m (overwrite4 data start a b c d) start =
      (match readSegment m data start with
       | (m', .ok sg) => (m', .ok { sg with file_tag := combineLE [a, b, c, d] })
       | (m', .error f) => (m', .error f)) := by
  have hlen : (data.take start).length = start := by
    rw [List.length_take]
    omega
  have hdrop : (overwrite4 data start a b c d).drop start =
      a :: b :: c :: d :: data.drop (start + 4) := by
    unfold overwrite4
    rw [List.append_assoc, List.drop_left' hlen]
    rfl
  have htag : takeU32 .le (a :: b :: c :: d :: data.drop (start + 4)) =
      .ok (combineLE [a, b, c, d], data.drop (start + 4)) := by
    rw [takeU32_ok .le _ (by simp)]
    rfl
  have hlen4 : 4 ≤ (data.drop start).length := by
    rw [List.length_drop]
    omega
  have ho := takeU32_ok .le (data.drop start) hlen4
  have hdd : (data.drop start).drop 4 = data.drop (start + 4) := by
    rw [List.drop_drop]
  simp only [readSegment, hdrop, htag, ho, hdd]
  cases h2 : takeU32 .le (data.drop (start + 4)) with
  | error g => simp only [h2]
  | ok pr =>
    obtain ⟨flags, s2⟩ := pr
    simp only [h2]
    exact readSegmentMetadata_tag m _ (combineLE [a, b, c, d]) _ flags start s2

/-- C10, witness: overwriting the magic of a concrete well-formed segment
with `9 9 9 9` parses identically apart from the stored tag. -/
theorem c10_witness :
    0 + 4 ≤ fileNoRaw.length ∧
    readSegment TdmsMap.new (overwrite4 fileNoRaw 0 9 9 9 9) 0 =
      (match readSegment TdmsMap.new fileNoRaw 0 with
       | (m', .ok sg) => (m', .ok { sg with file_tag := combineLE [9, 9, 9, 9] })
       | (m', .error f) => (m', .error f)) :=
  ⟨by decide, c10_file_tag_never_validated TdmsMap.new fileNoRaw 0 9 9 9 9 (by decide)⟩

/-! ## C8: the code's string block layout versus the specified one -/

/-- On in-range operands, wrapping 32-bit subtraction is plain subtraction. -/
lemma wsub32_of_le (L p : Nat) (hpl : p ≤ L) (hL : L < W32) : wsub32 L p = L - p := by
  have hp : p < W32 := lt_of_le_of_lt hpl hL
  have hW : 0 < W32 := by unfold W32; omega
  unfold wsub32
  rw [Nat.mod_eq_of_lt hL, Nat.mod_eq_of_lt hp]
  have h1 : L + (W32 - p) = (L - p) + W32 := by omega
  rw [h1, Nat.add_mod_right]
  exact Nat.mod_eq_of_lt (by omega)

/-- A little-endian combination of bytes is bounded by 256 to the length. -/
lemma combineLE_lt (bs : List Nat) (h : ∀ b ∈ bs, b < 256) :
    combineLE bs < 256 ^ bs.length := by
  induction bs with
  | nil => simp [combineLE]
  | cons b r ih =>
    have hb := h b (by simp)
    have hr := ih (fun x hx => h x (by simp [hx]))
    simp only [combineLE, List.length_cons]
    have hpow : 256 ^ (r.length + 1) = 256 * 256 ^ r.length := by ring
    rw [hpow]
    omega

/-- Four bytes combine (in either byte order) to a value below `2 ^ 32`. -/
lemma combine_lt (e : Endian) (bs : List Nat) (hlen : bs.length = 4)
    (h : ∀ b ∈ bs, b < 256) : combine e bs < W32 := by
  have hW : (256 : Nat) ^ 4 ≤ W32 := by unfold W32; norm_num
  cases e with
  | le =>
    have := combineLE_lt bs h
    rw [hlen] at this
    exact lt_of_lt_of_le this hW
  | be =>
    have := combineLE_lt bs.reverse (fun x hx => h x (List.mem_reverse.mp hx))
    rw [List.length_reverse, hlen] at this
    exact lt_of_lt_of_le this hW

/-- The default of `getLast?` on a nonempty list moves to the head. -/
lemma getLastD_cons (L p : Nat) (rest : List Nat) :
    (L :: rest).getLast?.getD p = rest.getLast?.getD L := by
  cases rest with
  | nil => rfl
  | cons a t =>
    rw [List.getLast?_cons_cons]
    cases h : (a :: t).getLast? with
    | none =>
      exact absurd h (by simp [List.getLast?_eq_none_iff])
    | some x => rfl

/-- The offsets read from a byte buffer are below `2 ^ 32`, and reading
leaves the underlying buffer unchanged. -/
lemma rdU32s_lt (e : Endian) : ∀ (n : Nat) (r : RdState) (offs : List Nat) (r1 : RdState),
    rdU32s e n r = .ok (offs, r1) → (∀ b ∈ r.data, b < 256) →
    (∀ o ∈ offs, o < W32) ∧ r1.data = r.data
  | 0, r, offs, r1, h, _ => by
    simp only [rdU32s] at h
    injection h with h2
    obtain ⟨h3, h4⟩ := Prod.mk.injEq .. ▸ h2
    subst h3
    subst h4
    exact ⟨by simp, rfl⟩
  | n + 1, r, offs, r1, h, hb => by
    simp only [rdU32s, rdU32, rdBytes] at h
    by_cases hle : r.pos + 4 ≤ r.data.length
    · simp only [if_pos hle] at h
      cases hrec : rdU32s e n { r with pos := r.pos + 4 } with
      | error f => rw [hrec] at h; cases h
      | ok pr =>
        obtain ⟨tl, r2⟩ := pr
        rw [hrec] at h
        injection h with h2
        obtain ⟨h3, h4⟩ := Prod.mk.injEq .. ▸ h2
        subst h3
        subst h4
        have htk : ((r.data.drop r.pos).take 4).length = 4 := by
          rw [List.length_take, List.length_drop]
          omega
        have hmem : ∀ b ∈ (r.data.drop r.pos).take 4, b < 256 :=
          fun b hbm => hb b (List.mem_of_mem_drop (List.mem_of_mem_take hbm))
        have hv : combine e ((r.data.drop r.pos).take 4) < W32 :=
          combine_lt e _ htk hmem
        have ih := rdU32s_lt e n { r with pos := r.pos + 4 } tl r2 hrec hb
        refine ⟨?_, ih.2⟩
        intro o ho
        rcases List.mem_cons.mp ho with h | h
        · subst h; exact hv
        · exact ih.1 o h
    · simp only [if_neg hle] at h
      cases h

/-- With in-range, nondecreasing offsets, the chunk loop of `String::read`
realises exactly the specified element extents, and stops with the cursor
at the end of the last element. -/
lemma strChunksLoop_spec (data : List Nat) :
    ∀ (offs : List Nat) (p base : Nat), p < W32 → (∀ o ∈ offs, o < W32) →
    List.Chain (· ≤ ·) p offs →
    strChunksLoop (some p) offs ⟨data, base + p⟩ =
      (match specChunks data base p offs with
       | .error f => .error f
       | .ok elems => .ok (elems, ⟨data, base + (offs.getLast?.getD p)⟩))
  | [], p, base, _, _, _ => by
    simp [strChunksLoop, specChunks]
  | L :: rest, p, base, hp, hW, hch => by
    have hLW : L < W32 := hW L (by simp)
    have hpL : p ≤ L := by cases hch with | cons h1 h2 => exact h1
    have hchL : List.Chain (· ≤ ·) L rest := by cases hch with | cons h1 h2 => exact h2
    have hWr : ∀ o ∈ rest, o < W32 := fun o ho => hW o (by simp [ho])
    have hsize : wsub32 L p = L - p := wsub32_of_le L p hpL hLW
    simp only [strChunksLoop, hsize, specChunks, rdBytes, sliceBytes]
    by_cases hle : base + p + (L - p) ≤ data.length
    · simp only [if_pos hle]
      by_cases hu : utf8Valid ((data.drop (base + p)).take (L - p)) = true
      · simp only [hu, if_true]
        have hpos : base + p + (L - p) = base + L := by omega
        rw [hpos]
        rw [strChunksLoop_spec data rest L base hLW hWr hchL]
        cases hs : specChunks data base L rest with
        | error f => simp only [hs]
        | ok tl =>
          simp only [hs]
          rw [getLastD_cons]
      · simp only [hu, Bool.false_eq_true, if_false]
    · simp only [if_neg hle]

/-- C8 (amended): on a contiguous (non-interleaved) block of a string
channel, `impl TdmsVector for String::read` realises exactly the specified
layout — `n` 32-bit end offsets followed by the concatenated UTF-8 payload,
element `i` spanning `[offsets[i-1], offsets[i])` with `offsets[-1] = 0` —
provided the stored offsets are nondecreasing: same elements, same final
cursor, same error. (The interleaved path does not follow this layout; see
the counterexample.) -/
theorem c8_amended_contiguous_string_block (e : Endian) (n : Nat) (r : RdState)
    (offs : List Nat) (r1 : RdState)
    (hbytes : ∀ b ∈ r.data, b < 256)
    (hrd : rdU32s e n r = .ok (offs, r1))
    (hmono : List.Chain (· ≤ ·) 0 offs) :
    stringReadN e n r = stringBlockSpec e n r := by
  obtain ⟨hW, hdata⟩ := rdU32s_lt e n r offs r1 hrd hbytes
  simp only [stringReadN, stringBlockSpec, hrd]
  obtain ⟨d1, p1⟩ := r1
  cases offs with
  | nil => simp [strChunksLoop, specChunks]
  | cons L rest =>
    have hLW : L < W32 := hW L (by simp)
    have hchL : List.Chain (· ≤ ·) L rest := by cases hmono with | cons h1 h2 => exact h2
    have hWr : ∀ o ∈ rest, o < W32 := fun o ho => hW o (by simp [ho])
    simp only [strChunksLoop, specChunks, rdBytes, sliceBytes, Nat.add_zero, Nat.sub_zero]
    by_cases hle : p1 + L ≤ d1.length
    · simp only [if_pos hle]
      by_cases hu : utf8Valid ((d1.drop p1).take L) = true
      · simp only [hu, if_true]
        rw [strChunksLoop_spec d1 rest L p1 hLW hWr hchL]
        cases hs : specChunks d1 p1 L rest with
        | error f => simp only [hs]
        | ok tl =>
          simp only [hs]
          rw [getLastD_cons]
      · simp only [hu, Bool.false_eq_true, if_false]
    · simp only [if_neg hle]

/-- A contiguous string block: end offsets `1, 3`, payload `"ABC"`. -/
def c8wState : RdState := ⟨u32le 1 ++ u32le 3 ++ [65, 66, 67], 0⟩

/-- C8, witness: on the concrete block `c8wState` the code's string read and
the specified layout agree. -/
theorem c8_witness :
    (∀ b ∈ c8wState.data, b < 256) ∧
    rdU32s .le 2 c8wState = .ok ([1, 3], ⟨c8wState.data, 8⟩) ∧
    List.Chain (· ≤ ·) 0 [1, 3] ∧
    stringReadN .le 2 c8wState = stringBlockSpec .le 2 c8wState :=
  ⟨by decide, by rfl, .cons (by decide) (.cons (by decide) .nil),
   c8_amended_contiguous_string_block .le 2 c8wState [1, 3] ⟨c8wState.data, 8⟩
     (by decide) (by rfl) (.cons (by decide) (.cons (by decide) .nil))⟩

/-! ## C6: bounds of the emitted read plan -/

/-- The latest object record stored under a path (a default when absent). -/
def lastObjOf (m : TdmsMap) (path : TdmsPath) : TdmsObject :=
  ((imapFind m.all_objects path).getD default).last_object

/-- The read plan stored under a path (empty when absent). -/
def readMapOf (m : TdmsMap) (path : TdmsPath) : List ReadPair :=
  ((imapFind m.all_objects path).getD default).read_map

/-- The fixed per-value byte width of a path's latest raw type (`0` for
typeless records and for strings, whose width is not fixed). -/
def objElemSize (m : TdmsMap) (path : TdmsPath) : Nat :=
  match (lastObjOf m path).raw_data_type with
  | none => 0
  | some .TdmsString => 0
  | some t => match t.size with | .ok sz => sz | .error _ => 0

/-- The summed `no_bytes` of a list of paths: one chunk's worth of raw
bytes when the list is the live objects. -/
def liveBytes (m : TdmsMap) : List TdmsPath → Nat
  | [] => 0
  | k :: rest => (lastObjOf m k).no_bytes + liveBytes m rest

/-- Each `ReadPair` emitted by the chunk loop starts at or after the raw
block's start and, counted at `esz` bytes per value, ends at or before the
block's end, provided a chunk's worth fits in the raw block and the
object's extent fits in the chunk. -/
lemma pairsLoop_bounds (seg : TdmsSegment) (chunk relPos strideVal flen esz : Nat)
    (hoff : seg.raw_data_offset ≤ seg.next_seg_offset)
    (hflen : seg.start_index + HEADER_LEN + seg.next_seg_offset ≤ flen)
    (hW : flen < W64)
    (hchunks : seg.no_chunks * chunk ≤ seg.next_seg_offset - seg.raw_data_offset) :
    ∀ (k i : Nat) (om om1 : ObjectMap),
    i + k ≤ seg.no_chunks →
    relPos + (om.last_object.no_raw_vals.getD 0) * esz ≤ chunk →
    pairsLoop seg chunk relPos strideVal i k om = .ok om1 →
    om1.last_object = om.last_object ∧
    ∀ p ∈ om1.read_map, p ∈ om.read_map ∨
      (seg.start_index + HEADER_LEN + seg.raw_data_offset ≤ p.start_index ∧
       p.start_index + p.no_values * esz ≤
         seg.start_index + HEADER_LEN + seg.next_seg_offset)
  | 0, i, om, om1, _, _, h => by
    simp only [pairsLoop] at h
    injection h with h2
    subst h2
    exact ⟨rfl, fun p hp => Or.inl hp⟩
  | k + 1, i, om, om1, hik, hbound, h => by
    cases hv : om.last_object.no_raw_vals with
    | none =>
      simp only [pairsLoop, hv] at h
      cases h
    | some vals =>
      simp only [pairsLoop, hv] at h
      rw [hv, Option.getD_some] at hbound
      have hw64 : W64 = 18446744073709551616 := rfl
      have h28 : HEADER_LEN = 28 := rfl
      have hi1 : i + 1 ≤ seg.no_chunks := by omega
      have hiC : (i + 1) * chunk ≤ seg.no_chunks * chunk :=
        Nat.mul_le_mul_right chunk hi1
      have hiC' : i * chunk + chunk ≤ seg.next_seg_offset - seg.raw_data_offset := by
        have : (i + 1) * chunk = i * chunk + chunk := by ring
        omega
      have e1 : wadd seg.start_index HEADER_LEN = seg.start_index + 28 := by
        unfold wadd
        rw [h28]
        exact Nat.mod_eq_of_lt (by omega)
      have e2 : wadd (seg.start_index + 28) seg.raw_data_offset =
          seg.start_index + 28 + seg.raw_data_offset := by
        unfold wadd
        exact Nat.mod_eq_of_lt (by omega)
      have e3 : wmul i chunk = i * chunk := by
        unfold wmul
        exact Nat.mod_eq_of_lt (by omega)
      have e4 : wadd (seg.start_index + 28 + seg.raw_data_offset) (i * chunk) =
          seg.start_index + 28 + seg.raw_data_offset + i * chunk := by
        unfold wadd
        exact Nat.mod_eq_of_lt (by omega)
      have e5 : wadd (seg.start_index + 28 + seg.raw_data_offset + i * chunk) relPos =
          seg.start_index + 28 + seg.raw_data_offset + i * chunk + relPos := by
        unfold wadd
        exact Nat.mod_eq_of_lt (by omega)
      rw [e1, e2, e3, e4, e5] at h
      have hik' : (i + 1) + k ≤ seg.no_chunks := by omega
      have hbound' : relPos +
          (({ om with
              read_map := om.read_map ++
                [{ start_index := seg.start_index + 28 + seg.raw_data_offset +
                     i * chunk + relPos,
                   no_values := vals,
                   interleaved := hasFlag seg.toc_mask kTocInterleavedData,
                   stride := some strideVal }],
              total_bytes := wadd om.total_bytes om.last_object.no_bytes,
              total_values := wadd om.total_values vals } : ObjectMap).last_object.no_raw_vals.getD 0) *
            esz ≤ chunk := by
        rw [show ({ om with
              read_map := om.read_map ++
                [{ start_index := seg.start_index + 28 + seg.raw_data_offset +
                     i * chunk + relPos,
                   no_values := vals,
                   interleaved := hasFlag seg.toc_mask kTocInterleavedData,
                   stride := some strideVal }],
              total_bytes := wadd om.total_bytes om.last_object.no_bytes,
              total_values := wadd om.total_values vals } : ObjectMap).last_object =
            om.last_object from rfl, hv, Option.getD_some]
        exact hbound
      obtain ⟨hl, hp⟩ := pairsLoop_bounds seg chunk relPos strideVal flen esz
        hoff hflen hW hchunks k (i + 1) _ om1 hik' hbound' h
      refine ⟨hl, ?_⟩
      intro p hp2
      rcases hp p hp2 with hmem | hb2
      · rcases List.mem_append.mp hmem with hmo | hone
        · exact Or.inl hmo
        · have hp3 := List.mem_singleton.mp hone
          subst hp3
          right
          constructor
          · show seg.start_index + HEADER_LEN + seg.raw_data_offset ≤
              seg.start_index + 28 + seg.raw_data_offset + i * chunk + relPos
            omega
          · show seg.start_index + 28 + seg.raw_data_offset + i * chunk + relPos +
                vals * esz ≤ seg.start_index + HEADER_LEN + seg.next_seg_offset
            omega
      · exact Or.inr hb2

/-- Replacing a key's entry with one that keeps its `last_object` leaves
every path's latest record unchanged. -/
lemma lastObjOf_const_update (m : TdmsMap) (key : TdmsPath) (om2 : ObjectMap)
    (h : om2.last_object = lastObjOf m key) (p : TdmsPath) :
    lastObjOf { m with all_objects := imapUpdate m.all_objects key (fun _ => om2) } p =
      lastObjOf m p := by
  unfold lastObjOf at *
  show ((imapFind (imapUpdate m.all_objects key (fun _ => om2)) p).getD default).last_object = _
  rw [imapFind_update]
  by_cases hp : p = key
  · subst hp
    cases hf : imapFind m.all_objects p with
    | none => simp [hf]
    | some om =>
      simp only [hf, Option.getD_some] at h
      simp [hf, h]
  · simp [hp]

/-- `liveBytes` under a `last_object`-preserving single-key update. -/
lemma liveBytes_const_update (m : TdmsMap) (key : TdmsPath) (om2 : ObjectMap)
    (h : om2.last_object = lastObjOf m key) :
    ∀ keys,
    liveBytes { m with all_objects := imapUpdate m.all_objects key (fun _ => om2) } keys =
      liveBytes m keys
  | [] => rfl
  | k :: rest => by
    simp only [liveBytes, lastObjOf_const_update m key om2 h k,
      liveBytes_const_update m key om2 h rest]

/-- `objElemSize` under a `last_object`-preserving single-key update. -/
lemma objElemSize_const_update (m : TdmsMap) (key : TdmsPath) (om2 : ObjectMap)
    (h : om2.last_object = lastObjOf m key) (p : TdmsPath) :
    objElemSize { m with all_objects := imapUpdate m.all_objects key (fun _ => om2) } p =
      objElemSize m p := by
  unfold objElemSize
  rw [lastObjOf_const_update m key om2 h p]

/-- A single-key update does not touch other paths' read plans. -/
lemma readMapOf_update_ne (m : TdmsMap) (key : TdmsPath) (om2 : ObjectMap) (p : TdmsPath)
    (hp : ¬p = key) :
    readMapOf { m with all_objects := imapUpdate m.all_objects key (fun _ => om2) } p =
      readMapOf m p := by
  unfold readMapOf
  show ((imapFind (imapUpdate m.all_objects key (fun _ => om2)) p).getD default).read_map = _
  rw [imapFind_update, if_neg hp]

/-- After updating a present key, its read plan is the new entry's. -/
lemma readMapOf_update_eq (m : TdmsMap) (key : TdmsPath) (om om2 : ObjectMap)
    (hf : imapFind m.all_objects key = some om) :
    readMapOf { m with all_objects := imapUpdate m.all_objects key (fun _ => om2) } key =
      om2.read_map := by
  unfold readMapOf
  show ((imapFind (imapUpdate m.all_objects key (fun _ => om2)) key).getD default).read_map = _
  rw [imapFind_update, if_pos rfl, hf]
  rfl

/-- The walk over the live objects only appends `ReadPair`s that lie inside
the producing segment's raw block, provided a chunk's worth of live bytes
fits in the block and each live object's value extent fits in its byte
count. -/
lemma uiLoop_bounds (seg : TdmsSegment) (chunk channels flen : Nat)
    (hni : hasFlag seg.toc_mask kTocInterleavedData = false)
    (hoff : seg.raw_data_offset ≤ seg.next_seg_offset)
    (hflen : seg.start_index + HEADER_LEN + seg.next_seg_offset ≤ flen)
    (hW : flen < W64)
    (hchunks : seg.no_chunks * chunk ≤ seg.next_seg_offset - seg.raw_data_offset)
    (hcW : chunk < W64) :
    ∀ (keys : List TdmsPath) (relPos : Nat) (m m1 : TdmsMap),
    uiLoop seg chunk channels keys relPos m = (m1, .ok ()) →
    relPos + liveBytes m keys ≤ chunk →
    (∀ key ∈ keys, (lastObjOf m key).no_raw_vals.getD 0 * objElemSize m key ≤
        (lastObjOf m key).no_bytes) →
    ∀ path p, p ∈ readMapOf m1 path →
      p ∈ readMapOf m path ∨
      (seg.start_index + HEADER_LEN + seg.raw_data_offset ≤ p.start_index ∧
       p.start_index + p.no_values * objElemSize m path ≤
         seg.start_index + HEADER_LEN + seg.next_seg_offset)
  | [], relPos, m, m1, h, _, _ => by
    simp only [uiLoop] at h
    obtain ⟨h2, h3⟩ := Prod.mk.injEq .. ▸ h
    subst h2
    exact fun path p hp => Or.inl hp
  | key :: rest, relPos, m, m1, h, hfit, hvals => by
    simp only [uiLoop] at h
    cases hfind : imapFind m.all_objects key with
    | none =>
      simp only [hfind] at h
      obtain ⟨h2, h3⟩ := Prod.mk.injEq .. ▸ h
      cases h3
    | some om =>
      simp only [hfind, hni, Bool.false_eq_true, if_false] at h
      have hlast0 : lastObjOf m key = om.last_object := by
        unfold lastObjOf
        rw [hfind]
        rfl
      have hkey := hvals key (by simp)
      rw [hlast0] at hkey
      simp only [liveBytes, hlast0] at hfit
      have hwadd : wadd relPos om.last_object.no_bytes =
          relPos + om.last_object.no_bytes := by
        unfold wadd
        have hw64 : W64 = 18446744073709551616 := rfl
        exact Nat.mod_eq_of_lt (by omega)
      split at h
      · obtain ⟨h2, h3⟩ := Prod.mk.injEq .. ▸ h
        cases h3
      · rename_i sz hts
        by_cases hnb : om.last_object.no_bytes > 0
        · simp only [if_pos hnb] at h
          split at h
          · obtain ⟨h2, h3⟩ := Prod.mk.injEq .. ▸ h
            cases h3
          · rename_i om1' heq2
            obtain ⟨hlastp, hpairs⟩ := pairsLoop_bounds seg chunk relPos
              (wsub channels sz) flen (objElemSize m key) hoff hflen hW hchunks
              seg.no_chunks 0 om om1' (by omega)
              (le_trans (Nat.add_le_add_left hkey relPos) (by omega)) heq2
            rw [hwadd] at h
            generalize hOM : ({ last_object := om1'.last_object,
                                read_map := om1'.read_map,
                                total_bytes := om1'.total_bytes,
                                total_values := om1'.total_values,
                                bigendian := hasFlag seg.toc_mask kTocBigEndian } :
                              ObjectMap) = om2 at h
            have hom2 : om2.last_object = lastObjOf m key := by
              rw [← hOM, hlast0]
              exact hlastp
            have hrm2 : om2.read_map = om1'.read_map := by
              rw [← hOM]
            have hup := lastObjOf_const_update m key om2 hom2
            have hoes := objElemSize_const_update m key om2 hom2
            have hlb := liveBytes_const_update m key om2 hom2
            have hfit' : (relPos + om.last_object.no_bytes) +
                liveBytes { m with all_objects := imapUpdate m.all_objects key (fun _ => om2) } rest ≤ chunk := by
              rw [hlb rest]
              omega
            have hvals' : ∀ k' ∈ rest,
                (lastObjOf { m with all_objects := imapUpdate m.all_objects key (fun _ => om2) } k').no_raw_vals.getD 0 *
                  objElemSize { m with all_objects := imapUpdate m.all_objects key (fun _ => om2) } k' ≤
                  (lastObjOf { m with all_objects := imapUpdate m.all_objects key (fun _ => om2) } k').no_bytes := by
              intro k' hk'
              rw [hup k', hoes k']
              exact hvals k' (by simp [hk'])
            have ih := uiLoop_bounds seg chunk channels flen hni hoff hflen hW hchunks hcW
              rest (relPos + om.last_object.no_bytes) _ m1 h hfit' hvals'
            intro path p hp
            rcases ih path p hp with hmem | ⟨hb1, hb2⟩
            · by_cases hpk : path = key
              · subst hpk
                rw [readMapOf_update_eq m path om om2 hfind, hrm2] at hmem
                rcases hpairs p hmem with hmo | ⟨hc1, hc2⟩
                · left
                  unfold readMapOf
                  rw [hfind]
                  exact hmo
                · exact Or.inr ⟨hc1, hc2⟩
              · left
                rw [readMapOf_update_ne m key om2 path hpk] at hmem
                exact hmem
            · right
              rw [hoes path] at hb2
              exact ⟨hb1, hb2⟩
        · simp only [if_neg hnb] at h
          rw [hwadd] at h
          generalize hOM : ({ last_object := om.last_object,
                              read_map := om.read_map,
                              total_bytes := om.total_bytes,
                              total_values := om.total_values,
                              bigendian := hasFlag seg.toc_mask kTocBigEndian } :
                            ObjectMap) = om2 at h
          have hom2 : om2.last_object = lastObjOf m key := by
            rw [← hOM, hlast0]
          have hrm2 : om2.read_map = om.read_map := by
            rw [← hOM]
          have hup := lastObjOf_const_update m key om2 hom2
          have hoes := objElemSize_const_update m key om2 hom2
          have hlb := liveBytes_const_update m key om2 hom2
          have hfit' : (relPos + om.last_object.no_bytes) +
              liveBytes { m with all_objects := imapUpdate m.all_objects key (fun _ => om2) } rest ≤ chunk := by
            rw [hlb rest]
            omega
          have hvals' : ∀ k' ∈ rest,
              (lastObjOf { m with all_objects := imapUpdate m.all_objects key (fun _ => om2) } k').no_raw_vals.getD 0 *
                objElemSize { m with all_objects := imapUpdate m.all_objects key (fun _ => om2) } k' ≤
                (lastObjOf { m with all_objects := imapUpdate m.all_objects key (fun _ => om2) } k').no_bytes := by
            intro k' hk'
            rw [hup k', hoes k']
            exact hvals k' (by simp [hk'])
          have ih := uiLoop_bounds seg chunk channels flen hni hoff hflen hW hchunks hcW
            rest (relPos + om.last_object.no_bytes) _ m1 h hfit' hvals'
          intro path p hp
          rcases ih path p hp with hmem | ⟨hb1, hb2⟩
          · by_cases hpk : path = key
            · subst hpk
              rw [readMapOf_update_eq m path om om2 hfind, hrm2] at hmem
              left
              unfold readMapOf
              rw [hfind]
              exact hmem
            · left
              rw [readMapOf_update_ne m key om2 path hpk] at hmem
              exact hmem
          · right
            rw [hoes path] at hb2
            exact ⟨hb1, hb2⟩

/-- C6 (amended): `update_indexes` performs no bounds check of its own, so
the claimed invariant holds only when the segment header is itself honest.
For a non-interleaved segment whose declared raw block lies inside the file
(`start + 28 + next_seg_offset ≤ file_length`), whose chunks fit the block
(`no_chunks × chunk_size ≤ next_seg_offset − raw_data_offset`), whose live
objects' bytes fit one chunk, and whose per-object value extents fit their
byte counts, every `ReadPair` the call adds starts inside the block and its
byte extent (value count × fixed sample size) ends inside the block, hence
inside the file.  (With a lying header the emitted pairs exceed the file;
see the counterexample.) -/
theorem c6_amended_read_pair_bounds (m : TdmsMap) (seg : TdmsSegment)
    (chunk channels flen : Nat) (m1 : TdmsMap)
    (hni : hasFlag seg.toc_mask kTocInterleavedData = false)
    (hoff : seg.raw_data_offset ≤ seg.next_seg_offset)
    (hflen : seg.start_index + HEADER_LEN + seg.next_seg_offset ≤ flen)
    (hW : flen < W64)
    (hchunks : seg.no_chunks * chunk ≤ seg.next_seg_offset - seg.raw_data_offset)
    (hcW : chunk < W64)
    (hfit : liveBytes m m.live_objects ≤ chunk)
    (hvals : ∀ key ∈ m.live_objects,
        (lastObjOf m key).no_raw_vals.getD 0 * objElemSize m key ≤
          (lastObjOf m key).no_bytes)
    (hok : updateIndexes m seg chunk channels = (m1, .ok ())) :
    ∀ path p, p ∈ readMapOf m1 path →
      p ∈ readMapOf m path ∨
      (seg.start_index + HEADER_LEN + seg.raw_data_offset ≤ p.start_index ∧
       p.start_index + p.no_values * objElemSize m path ≤
         seg.start_index + HEADER_LEN + seg.next_seg_offset ∧
       seg.start_index + HEADER_LEN + seg.next_seg_offset ≤ flen) := by
  simp only [updateIndexes] at hok
  have hall := uiLoop_bounds seg chunk channels flen hni hoff hflen hW hchunks hcW
    m.live_objects 0 m m1 hok (by omega) hvals
  intro path p hp
  rcases hall path p hp with hm | ⟨h1, h2⟩
  · exact Or.inl hm
  · exact Or.inr ⟨h1, h2, hflen⟩

/-- A one-object index: live channel `"x"` declaring 3 `f64` values in 24
bytes. -/
def c6wMap : TdmsMap :=
  { segments := [],
    all_objects := [([120], { last_object := { object_path := [120], raw_data_type := some .DoubleFloat, no_raw_vals := some 3, no_bytes := 24 } })],
    live_objects := [[120]] }

/-- An honest little-endian segment record at file offset 0: 33 bytes of
metadata, one 24-byte chunk of raw data, 85-byte file. -/
def c6wSeg : TdmsSegment :=
  { TdmsSegment.new 0 with toc_mask := 14, next_seg_offset := 57, raw_data_offset := 33, no_chunks := 1 }

/-- C6, witness: on the concrete honest segment every emitted pair stays
inside the raw block and the 85-byte file. -/
theorem c6_witness :
    hasFlag c6wSeg.toc_mask kTocInterleavedData = false ∧
    c6wSeg.raw_data_offset ≤ c6wSeg.next_seg_offset ∧
    c6wSeg.start_index + HEADER_LEN + c6wSeg.next_seg_offset ≤ 85 ∧
    (85 : Nat) < W64 ∧
    c6wSeg.no_chunks * 24 ≤ c6wSeg.next_seg_offset - c6wSeg.raw_data_offset ∧
    (24 : Nat) < W64 ∧
    liveBytes c6wMap c6wMap.live_objects ≤ 24 ∧
    (∀ key ∈ c6wMap.live_objects,
        (lastObjOf c6wMap key).no_raw_vals.getD 0 * objElemSize c6wMap key ≤
          (lastObjOf c6wMap key).no_bytes) ∧
    (∀ path p, p ∈ readMapOf (updateIndexes c6wMap c6wSeg 24 8).1 path →
      p ∈ readMapOf c6wMap path ∨
      (c6wSeg.start_index + HEADER_LEN + c6wSeg.raw_data_offset ≤ p.start_index ∧
       p.start_index + p.no_values * objElemSize c6wMap path ≤
         c6wSeg.start_index + HEADER_LEN + c6wSeg.next_seg_offset ∧
       c6wSeg.start_index + HEADER_LEN + c6wSeg.next_seg_offset ≤ 85)) :=
  ⟨by decide, by decide, by decide, by decide, by decide, by decide, by decide, by decide,
   c6_amended_read_pair_bounds c6wMap c6wSeg 24 8 85 _ (by decide) (by decide) (by decide)
     (by decide) (by decide) (by decide) (by decide) (by decide) (by rfl)⟩
